import Mathlib

/-!
Verification development for the mikrotik-kube container orchestrator.

Shallow embedding of the components the claims concern:
* the on-disk blob/manifest store (`pkg/registry/store.go`, `BlobStore`),
* the registry HTTP handlers (`Registry.handleManifest` / `Registry.handleBlob`),
* the IPAM allocator (`package ipam`, `Allocator` / `allocateFromPool`),
* the supervisor (`pkg/systemd/manager.go`: `handleUnhealthy`, `topoSort`,
  `BootSequence`),
* the pod provider (`pkg/provider/provider.go`: `DeletePod`, `GetPod`,
  `extractPriority`, `sanitizeName`) together with the network manager's
  `ReleaseInterface`.

Go maps are modelled as association lists with replace-or-append insertion,
the filesystem as an association list from path components to file contents,
and 32-bit unsigned arithmetic as `Nat` arithmetic with explicit `% 2^32`
where Go would wrap.  Strings are modelled at rune (Char) level; the names
involved are ASCII, where Go's byte-level `len`/slicing agrees with the
rune-level model.
-/

namespace MKube

/-! ### Association-list primitives (Go `map` model)

`mapSet` is Go's `m[k] = v` (replace the binding if the key is present,
otherwise append), `mapGet` is `m[k]` lookup, `mapDel` is `delete(m, k)`. -/

def mapSet {α : Type} : List (String × α) → String → α → List (String × α)
  | [], k, v => [(k, v)]
  | (k', v') :: rest, k, v =>
    if k' = k then (k, v) :: rest else (k', v') :: mapSet rest k v

def mapGet {α : Type} : List (String × α) → String → Option α
  | [], _ => none
  | (k', v') :: rest, k => if k' = k then some v' else mapGet rest k

def mapDel {α : Type} : List (String × α) → String → List (String × α)
  | [], _ => []
  | (k', v') :: rest, k =>
    if k' = k then mapDel rest k else (k', v') :: mapDel rest k

/-! ### Filesystem model

Paths are lists of components relative to the store root; file contents are
strings (byte strings).  `fsWrite` models `os.WriteFile`/`os.Create`+copy
(create or truncate), `fsRead` models `os.ReadFile` (`none` = error, e.g.
file does not exist).  `filepath.Join` path cleaning is not modelled; the
claims under study never hit it. -/

abbrev Path := List String

abbrev FS := List (List String × String)

def fsWrite : FS → Path → String → FS
  | [], p, v => [(p, v)]
  | (p', v') :: rest, p, v =>
    if p' = p then (p, v) :: rest else (p', v') :: fsWrite rest p v

def fsRead : FS → Path → Option String
  | [], _ => none
  | (p', v') :: rest, p => if p' = p then some v' else fsRead rest p

/-! ### BlobStore (`pkg/registry/store.go`) -/

/-- `manifestPath` ref sanitization: `strings.ReplaceAll(ref, ":", "-")`
(the pattern is the single rune `:`, so it is a character map). -/
def sanitizeRef (ref : String) : String :=
  String.mk (ref.toList.map fun c => if c = ':' then '-' else c)

/-- `(s *BlobStore) manifestPath`: `manifests/<repo>/<sanitized ref>.json`. -/
def manifestPath (repo ref : String) : Path :=
  ["manifests", repo, sanitizeRef ref ++ ".json"]

/-- Companion content-type file: `dataPath + ".type"`. -/
def manifestTypePath (repo ref : String) : Path :=
  ["manifests", repo, sanitizeRef ref ++ ".json.type"]

/-- `strings.SplitN(digest, ":", 2)`: split at the first `:`, if any. -/
def splitFirstColon : List Char → Option (List Char × List Char)
  | [] => none
  | c :: rest =>
    if c = ':' then some ([], rest)
    else (splitFirstColon rest).map fun pr => (c :: pr.1, pr.2)

/-- `(s *BlobStore) blobPath`: split the digest on the first `:`;
`blobs/<algo>/<hex>`, or `blobs/sha256/<digest>` when there is no `:`. -/
def blobPath (digest : String) : Path :=
  match splitFirstColon digest.toList with
  | none => ["blobs", "sha256", digest]
  | some (algo, rest) => ["blobs", String.mk algo, String.mk rest]

/-- The default manifest media type used by `GetManifest` when no `.type`
file exists. -/
def defaultManifestType : String :=
  "application/vnd.docker.distribution.manifest.v2+json"

/-- `(s *BlobStore) PutManifest`: write the manifest data, then write the
companion `.type` file only when the content type is non-empty. -/
def putManifest (fs : FS) (repo ref contentType data : String) : FS :=
  let fs1 := fsWrite fs (manifestPath repo ref) data
  if contentType ≠ "" then fsWrite fs1 (manifestTypePath repo ref) contentType
  else fs1

/-- `(s *BlobStore) GetManifest`: read the manifest data (error when the
file is missing); read the `.type` file, defaulting the content type when
that read fails. -/
def getManifest (fs : FS) (repo ref : String) : Option (String × String) :=
  match fsRead fs (manifestPath repo ref) with
  | none => none
  | some data =>
    match fsRead fs (manifestTypePath repo ref) with
    | none => some (data, defaultManifestType)
    | some t => some (data, t)

/-- `(s *BlobStore) PutBlob` models `os.Create(path)` followed by
`io.Copy(f, r)`.  The reader is modelled by the byte string it delivers
before failing (`delivered`) and whether it then fails (`readerFails`).
The file at the final blob path ends up holding exactly the delivered
prefix; the returned `Bool` is the error result of the copy.  There is no
temporary file and no rename in the source. -/
def putBlob (fs : FS) (digest delivered : String) (readerFails : Bool) :
    FS × Bool :=
  (fsWrite fs (blobPath digest) delivered, readerFails)

/-- `(s *BlobStore) GetBlob`: `os.ReadFile` of the blob path. -/
def getBlob (fs : FS) (digest : String) : Option String :=
  fsRead fs (blobPath digest)

/-- `(s *BlobStore) HasBlob`: `os.Stat`; `(exists, size)`. -/
def hasBlob (fs : FS) (digest : String) : Bool × Nat :=
  match fsRead fs (blobPath digest) with
  | none => (false, 0)
  | some data => (true, data.length)

/-! ### Registry HTTP handlers (`Registry.handleManifest` / `Registry.handleBlob`)

A response records the status code, the headers the handler sets explicitly
(in the order they are set), and the body bytes written (`none` when the
handler writes no body).  Headers added automatically by Go's `net/http`
(for example a derived `Content-Length` once the handler wrote a body)
are outside this model.  The pull-through path performs network I/O; it is
modelled by the `upstream` parameter, which stands for whatever response
that path would produce.  It is taken only on a cache miss when
`pullThrough` is set. -/

structure HTTPResponse where
  status : Nat
  headers : List (String × String)
  body : Option String
deriving Repr, DecidableEq

def headerGet (resp : HTTPResponse) (key : String) : Option String :=
  mapGet resp.headers key

def notFoundResp : HTTPResponse := ⟨404, [], some "404 page not found\n"⟩

def methodNotAllowedResp : HTTPResponse := ⟨405, [], none⟩

/-- `(r *Registry) handleManifest`.  `PUT` mutates the store, so the handler
returns the new store alongside the response; `reqBody` and
`reqContentType` are the request body and `Content-Type` header used by
the `PUT` arm. -/
def handleManifest (fs : FS) (method repo ref : String)
    (pullThrough : Bool) (upstream : HTTPResponse × FS)
    (reqContentType reqBody : String) : HTTPResponse × FS :=
  if method = "GET" then
    match getManifest fs repo ref with
    | some (data, contentType) =>
      (⟨200, [("Content-Type", contentType), ("Docker-Content-Digest", ref)],
        some data⟩, fs)
    | none => if pullThrough then upstream else (notFoundResp, fs)
  else if method = "HEAD" then
    match getManifest fs repo ref with
    | some (data, contentType) =>
      (⟨200, [("Content-Type", contentType),
              ("Content-Length", toString data.length),
              ("Docker-Content-Digest", ref)], none⟩, fs)
    | none => (notFoundResp, fs)
  else if method = "PUT" then
    (⟨201, [("Docker-Content-Digest", ref)], none⟩,
     putManifest fs repo ref reqContentType reqBody)
  else (methodNotAllowedResp, fs)

/-- `(r *Registry) handleBlob` (GET and HEAD; other methods get 405). -/
def handleBlob (fs : FS) (method repo digest : String)
    (pullThrough : Bool) (upstream : HTTPResponse × FS) : HTTPResponse × FS :=
  if method = "GET" then
    match getBlob fs digest with
    | some data =>
      (⟨200, [("Content-Type", "application/octet-stream"),
              ("Content-Length", toString data.length),
              ("Docker-Content-Digest", digest)], some data⟩, fs)
    | none => if pullThrough then upstream else (notFoundResp, fs)
  else if method = "HEAD" then
    match hasBlob fs digest with
    | (true, size) =>
      (⟨200, [("Content-Length", toString size),
              ("Docker-Content-Digest", digest)], none⟩, fs)
    | (false, _) => (notFoundResp, fs)
  else (methodNotAllowedResp, fs)

/-! ### IPAM allocator (`package ipam` in `pkg/registry/store.go`)

IPv4 addresses and the cursor are Go `uint32` values, modelled as `Nat`
with wraparound made explicit.  `Pool.subnetBase` is `IPToUint32(Subnet.IP)`
and `Pool.maskOnes` the prefix length (`Subnet.Mask.Size()` ones, with
bits = 32 for IPv4). -/

def U32 : Nat := 2 ^ 32

structure IPPool where
  subnetBase : Nat
  maskOnes : Nat
  gateway : Nat
  allocated : List (String × Nat)
  nextIP : Nat
deriving Repr, DecidableEq

/-- `maxHosts := uint32(1<<(bits-ones)) - 2` with `bits = 32`, including the
`uint32` truncation of `1<<32` and the underflow for a `/32` pool
(`uint32(1) - 2 = 2^32 - 1`). -/
def maxHostsOf (ones : Nat) : Nat :=
  ((1 <<< (32 - ones)) % U32 + (U32 - 2)) % U32

inductive AllocError where
  | poolNotFound
  | exhausted
deriving Repr, DecidableEq

/-- The scan loop of `allocateFromPool`: up to `fuel = maxHosts` attempts;
each attempt computes the candidate from the cursor, checks it against the
allocated map, advances the cursor (`uint32` increment, wrapping to 2 once
past `maxHosts`), and claims the candidate when it is free and is not the
gateway.  Returns the allocated address (if any) and the updated pool —
cursor movement persists even when the scan fails. -/
def allocScan : Nat → IPPool → String → Option Nat × IPPool
  | 0, pool, _ => (none, pool)
  | fuel + 1, pool, key =>
    let candidate := (pool.subnetBase + pool.nextIP) % U32
    let taken := pool.allocated.any fun e => e.2 = candidate
    let bumped := (pool.nextIP + 1) % U32
    let next := if maxHostsOf pool.maskOnes < bumped then 2 else bumped
    let pool1 : IPPool := { pool with nextIP := next }
    if taken = false ∧ candidate ≠ pool.gateway then
      (some candidate,
       { pool1 with allocated := mapSet pool1.allocated key candidate })
    else
      allocScan fuel pool1 key

/-- `allocateFromPool`: scan with `attempts < maxHosts`. -/
def allocateFromPool (pool : IPPool) (key : String) : Option Nat × IPPool :=
  allocScan (maxHostsOf pool.maskOnes) pool key

structure Allocator where
  pools : List (String × IPPool)
deriving Repr, DecidableEq

def emptyAllocator : Allocator := ⟨[]⟩

/-- `(a *Allocator) AddPool`: register a pool with an empty allocation map
and the cursor at host offset 2. -/
def addPool (a : Allocator) (name : String) (base ones gw : Nat) : Allocator :=
  ⟨mapSet a.pools name ⟨base, ones, gw, [], 2⟩⟩

/-- The tail of `Allocate` on the `allocateFromPool` result: a `nil, err`
return on a failed scan, the address otherwise; either way the pool's
mutations are kept (the pool is held by pointer in Go). -/
def allocateFinish (a : Allocator) (poolName : String)
    (pr : Option Nat × IPPool) : Except AllocError Nat × Allocator :=
  (match pr.1 with
   | none => .error .exhausted
   | some ip => .ok ip,
   ⟨mapSet a.pools poolName pr.2⟩)

/-- `(a *Allocator) Allocate`: look the pool up, run `allocateFromPool`,
and return its outcome. -/
def allocate (a : Allocator) (poolName key : String) :
    Except AllocError Nat × Allocator :=
  match mapGet a.pools poolName with
  | none => (.error .poolNotFound, a)
  | some pool => allocateFinish a poolName (allocateFromPool pool key)

/-- `(a *Allocator) Release`: drop the key's binding; no-op for an unknown
pool. -/
def release (a : Allocator) (poolName key : String) : Allocator :=
  match mapGet a.pools poolName with
  | none => a
  | some pool =>
    ⟨mapSet a.pools poolName { pool with allocated := mapDel pool.allocated key }⟩

/-- Driver for C1: issue one `Allocate` per key, collecting the successful
results in order. -/
def allocateSeq (a : Allocator) (poolName : String) :
    List String → List Nat × Allocator
  | [] => ([], a)
  | k :: ks =>
    match allocate a poolName k with
    | (.ok ip, a1) =>
      let (ips, a2) := allocateSeq a1 poolName ks
      (ip :: ips, a2)
    | (.error _, a1) => allocateSeq a1 poolName ks

/-- Membership of an address in a pool's CIDR: the address agrees with the
subnet base on the network prefix (for a `net.ParseCIDR`-produced, i.e.
mask-aligned, base this is exactly `Subnet.Contains`). -/
def inCIDR (base ones ip : Nat) : Prop :=
  ip / 2 ^ (32 - ones) * 2 ^ (32 - ones) = base

instance (base ones ip : Nat) : Decidable (inCIDR base ones ip) := by
  unfold inCIDR; infer_instance

/-- Well-formed pool registration: at least one host bit (prefix length at
most 31) and a `net.ParseCIDR`-style base — a `uint32` value aligned to
the mask. -/
def PoolWF (p : IPPool) : Prop :=
  p.maskOnes ≤ 31 ∧ p.subnetBase < U32 ∧
    p.subnetBase % 2 ^ (32 - p.maskOnes) = 0

/-- The allocator's pool invariant: every allocated address is in the CIDR
and differs from the gateway, allocated addresses are pairwise distinct,
and the cursor stays in `[2, max maxHosts 2]`. -/
def PoolInv (p : IPPool) : Prop :=
  (∀ e ∈ p.allocated, inCIDR p.subnetBase p.maskOnes e.2 ∧ e.2 ≠ p.gateway) ∧
    (p.allocated.map Prod.snd).Nodup ∧
    2 ≤ p.nextIP ∧ p.nextIP ≤ max (maxHostsOf p.maskOnes) 2

/-! ### Supervisor (`pkg/systemd/manager.go`) -/

structure SystemdConfig where
  maxRestarts : Nat
  restartCooldown : Nat
deriving Repr, DecidableEq

/-- `ContainerUnit` runtime state relevant to the restart handler.
`lastRestartAt` is a timestamp; `handleUnhealthy` takes the current time
`now` and compares `now - lastRestartAt` (Go `time.Since`) with the
cooldown. -/
structure CUnitState where
  name : String
  containerID : String
  restartPolicy : String
  restartCount : Nat
  lastRestartAt : Nat
  status : String
deriving Repr, DecidableEq

/-- Runtime-port calls the restart handler makes, in order. -/
inductive RuntimeAction where
  | stopContainer (id : String)
  | startContainer (id : String)
deriving Repr, DecidableEq

/-- `(m *Manager) handleUnhealthy`: defaulted max-restarts and cooldown;
`Always`/`OnFailure` → failed when the budget is exhausted, skip during
cooldown, otherwise stop/start with count bump and timestamp; `Never` →
status `stopped`; any other policy string falls through the `switch`
unchanged. -/
def handleUnhealthy (cfg : SystemdConfig) (now : Nat) (u : CUnitState) :
    CUnitState × List RuntimeAction :=
  let maxRestarts := if cfg.maxRestarts = 0 then 5 else cfg.maxRestarts
  let cooldown := if cfg.restartCooldown = 0 then 10 else cfg.restartCooldown
  if u.restartPolicy = "Always" ∨ u.restartPolicy = "OnFailure" then
    if maxRestarts ≤ u.restartCount then
      ({ u with status := "failed" }, [])
    else if now - u.lastRestartAt < cooldown then
      (u, [])
    else
      ({ u with
          status := "restarting"
          restartCount := u.restartCount + 1
          lastRestartAt := now },
       [.stopContainer u.containerID, .startContainer u.containerID])
  else if u.restartPolicy = "Never" then
    ({ u with status := "stopped" }, [])
  else
    (u, [])

/-! ### Topological sort (`topoSort` / `BootSequence`) -/

structure CUnit where
  name : String
  dependsOn : List String
  priority : Int
deriving Repr, DecidableEq

/-- `unitMap[dep]` lookup: the registered units keyed by name. -/
def lookupUnit (g : List CUnit) (n : String) : Option CUnit :=
  g.find? fun u => u.name == n

structure VisitState where
  visited : List String
  result : List CUnit
deriving Repr, DecidableEq

/-- The recursive `visit` closure of `topoSort`: skip if marked, otherwise
mark, visit each resolvable dependency, then emit the node.  Go's
recursion is unbounded; here it carries fuel, and `topoSort` passes one
more than the number of registered units, which the development proves
never runs out (each nested level marks a fresh name). -/
def visitD : Nat → List CUnit → CUnit → VisitState → VisitState
  | 0, _, _, s => s
  | fuel + 1, g, u, s =>
    if u.name ∈ s.visited then s
    else
      let s1 : VisitState := ⟨u.name :: s.visited, s.result⟩
      let s2 := u.dependsOn.foldl
        (fun acc dep => (lookupUnit g dep).elim acc fun d => visitD fuel g d acc)
        s1
      ⟨s2.visited, s2.result ++ [u]⟩

/-- `topoSort(units, unitMap)`: pre-sort ascending by priority
(`sort.Slice` with `<`; the order among equal priorities is unspecified,
which the theorems absorb by quantifying over the input permutation),
then depth-first visit each unit. -/
def topoSort (units g : List CUnit) : List CUnit :=
  (((units.insertionSort fun a b => a.priority ≤ b.priority).foldl
    (fun s u => visitD (g.length + 1) g u s) ⟨[], []⟩)).result

/-- One dependency edge respects the rank `r`: if `dep` resolves to unit
`d` in the set, `d` ranks strictly below `v`. -/
def rankEdgeOK (g : List CUnit) (r : String → Nat) (v : CUnit)
    (dep : String) : Prop :=
  ∀ d, lookupUnit g dep = some d → r d.name < r v.name

instance (g : List CUnit) (r : String → Nat) (v : CUnit) (dep : String) :
    Decidable (rankEdgeOK g r v dep) :=
  match h : lookupUnit g dep with
  | none => isTrue (by intro d hd; rw [h] at hd; cases hd)
  | some d =>
    if hlt : r d.name < r v.name then
      isTrue (by intro d' hd'; rw [h] at hd'; cases hd'; exact hlt)
    else isFalse fun hall => hlt (hall d h)

/-- The whole dependency graph respects a rank function.  A finite
dependency graph is acyclic exactly when such a rank exists. -/
def RankOK (g : List CUnit) (r : String → Nat) : Prop :=
  ∀ v ∈ g, ∀ dep ∈ v.dependsOn, rankEdgeOK g r v dep

instance (g : List CUnit) (r : String → Nat) : Decidable (RankOK g r) := by
  unfold RankOK; infer_instance

/-- `seq` is a topological order for `g`: every dependency of an emitted
unit that resolves in `g` is emitted at a strictly earlier position. -/
def TopoOrdered (g seq : List CUnit) : Prop :=
  ∀ (j : Nat) (v : CUnit), seq[j]? = some v → ∀ dep ∈ v.dependsOn, ∀ d,
    lookupUnit g dep = some d → ∃ i < j, seq[i]? = some d

/-- Growth order on visit states: the visited set only grows and the
result list is only appended to. -/
def StateLe (s s1 : VisitState) : Prop :=
  (∀ n ∈ s.visited, n ∈ s1.visited) ∧ ∃ ext, s1.result = s.result ++ ext

/-- How many entries of `l` lie outside `vis`. -/
def countNotMem : List String → List String → Nat
  | [], _ => 0
  | n :: rest, vis => (if n ∈ vis then 0 else 1) + countNotMem rest vis

/-- Number of registered names not yet visited — the measure showing the
fuel passed by `topoSort` suffices. -/
def unvisitedCount (g : List CUnit) (s : VisitState) : Nat :=
  countNotMem (g.map fun u => u.name) s.visited

/-- The DFS invariant, relative to the stack `pend` of names currently
being visited: the visited set is exactly the emitted names plus the
stack, emitted units come from the registered set, the emitted prefix is
already topologically ordered, no name is emitted twice, and stacked
names are not yet emitted. -/
def VisitInv (g : List CUnit) (s : VisitState) (pend : List String) : Prop :=
  (∀ n, n ∈ s.visited ↔ (n ∈ s.result.map (fun u => u.name) ∨ n ∈ pend)) ∧
    (∀ v ∈ s.result, v ∈ g) ∧
    TopoOrdered g s.result ∧
    (s.result.map fun u => u.name).Nodup ∧
    (∀ n ∈ pend, n ∉ s.result.map fun u => u.name)

/-! ### Pod provider (`pkg/provider/provider.go`) and network manager
(`pkg/network`, `Manager.ReleaseInterface`) -/

structure Pod where
  namespc : String
  name : String
  containers : List String
  annotations : List (String × String)
  restartPolicy : String
deriving Repr, DecidableEq

def podKey (pod : Pod) : String := pod.namespc ++ "/" ++ pod.name

/-- `truncate(s, max)`: Go slices bytes; for the ASCII names at hand this
agrees with taking runes. -/
def truncate (s : String) (max : Nat) : String :=
  if max < s.length then String.mk (s.toList.take max) else s

/-- The rune map inside `sanitizeName`: keep `[a-z0-9-]`, lowercase
`[A-Z]`, replace everything else with `-`. -/
def sanitizeRune (c : Char) : Char :=
  if ('a' ≤ c ∧ c ≤ 'z') ∨ ('0' ≤ c ∧ c ≤ '9') ∨ c = '-' then c
  else if 'A' ≤ c ∧ c ≤ 'Z' then Char.ofNat (c.toNat + 32)
  else '-'

/-- `sanitizeName(pod, containerName)`: `<pod>-<container>`, rune-mapped,
truncated to 32. -/
def sanitizeName (pod : Pod) (containerName : String) : String :=
  truncate (String.mk ((pod.name ++ "-" ++ containerName).toList.map sanitizeRune)) 32

/-- `fmt.Sprintf("veth-%s-%d", truncate(pod.Name, 8), i)`. -/
def vethName (pod : Pod) (i : Nat) : String :=
  "veth-" ++ truncate pod.name 8 ++ "-" ++ toString i

/-- `extractPriority(pod, index)`: the body returns `index * 10`
unconditionally; the `mikrotik.io/boot-priority` annotation named in its
comment is never consulted. -/
def extractPriority (pod : Pod) (index : Nat) : Nat :=
  index * 10

/-- Decimal-digit parser for the annotation value (the non-negative case
of `strconv.Atoi`). -/
def parseNatAux (acc : Nat) : List Char → Option Nat
  | [] => some acc
  | c :: rest =>
    if '0' ≤ c ∧ c ≤ '9' then parseNatAux (acc * 10 + (c.toNat - 48)) rest
    else none

def parseNat (s : String) : Option Nat :=
  match s.toList with
  | [] => none
  | cs => parseNatAux 0 cs

/-- Modelled from the spec: the priority rule the spec states for
`CreatePod` step 7 — the integer value of the `mikrotik.io/boot-priority`
annotation when present, else `i*10`.  (The source's `extractPriority`
ignores the annotation; this definition is the spec's version, for
comparison.) -/
def extractPrioritySpec (pod : Pod) (index : Nat) : Nat :=
  match mapGet pod.annotations "mikrotik.io/boot-priority" with
  | some v =>
    match parseNat v with
    | some n => n
    | none => index * 10
  | none => index * 10

/-- A RouterOS container record as `GetContainer` reports it. -/
structure RContainer where
  name : String
  id : String
  status : String
deriving Repr, DecidableEq

abbrev Runtime := List RContainer

/-- `GetContainer(name)`: RouterOS lookup by container name. -/
def getContainer (rt : Runtime) (name : String) : Option RContainer :=
  rt.find? fun c => c.name == name

/-- Runtime effect of `StopContainer(id)`. -/
def stopContainer (rt : Runtime) (id : String) : Runtime :=
  rt.map fun c => if c.id = id then { c with status := "stopped" } else c

/-- Runtime effect of `RemoveContainer(id)`. -/
def removeContainer (rt : Runtime) (id : String) : Runtime :=
  rt.filter fun c => ¬ c.id = id

/-- Provider-side state: the pod tracker, the network manager's
veth-name → IP allocation map, the supervisor's registered unit names, and
the runtime's container set. -/
structure ProviderState where
  pods : List (String × Pod)
  allocated : List (String × Nat)
  units : List String
  runtime : Runtime
deriving Repr, DecidableEq

/-- The body of `DeletePod`'s per-container loop: look the container up by
sanitized name (on error: log and `continue` — skipping every remaining
step for this container), stop it when running, remove it, release the
veth allocation (`Manager.ReleaseInterface` drops the map entry
unconditionally), and unregister the unit. -/
def deleteContainerStep (pod : Pod) (st : ProviderState)
    (ic : Nat × String) : ProviderState :=
  let name := sanitizeName pod ic.2
  match getContainer st.runtime name with
  | none => st
  | some ct =>
    let rt1 := if ct.status = "running" then stopContainer st.runtime ct.id
               else st.runtime
    let rt2 := removeContainer rt1 ct.id
    { st with
        runtime := rt2
        allocated := mapDel st.allocated (vethName pod ic.1)
        units := st.units.filter fun n => ¬ n = name }

/-- `(p *MikroTikProvider) DeletePod`: iterate the containers in order with
their indices, then drop the tracker entry. -/
def deletePod (st : ProviderState) (pod : Pod) : ProviderState :=
  let st1 := pod.containers.enum.foldl (deleteContainerStep pod) st
  { st1 with pods := mapDel st1.pods (podKey pod) }

/-- `(p *MikroTikProvider) GetPod`: tracker lookup; `none` is the
"pod not found" error. -/
def getPod (st : ProviderState) (namespc name : String) : Option Pod :=
  mapGet st.pods (namespc ++ "/" ++ name)

/-- Distinct container IDs belong to distinct names: two runtime records
that share an ID share their name.  (RouterOS IDs identify containers.) -/
def IdFun (rt : Runtime) : Prop :=
  ∀ c1 ∈ rt, ∀ c2 ∈ rt, c1.id = c2.id → c1.name = c2.name

/-! ## Theorems -/

/-! ### Map and filesystem lemmas -/

theorem fsRead_fsWrite_same (fs : FS) (p : Path) (v : String) :
    fsRead (fsWrite fs p v) p = some v := by
  induction fs with
  | nil => simp [fsWrite, fsRead]
  | cons e rest ih =>
    by_cases h : e.1 = p
    · simp [fsWrite, fsRead, h]
    · simp [fsWrite, fsRead, h, ih]

theorem fsRead_fsWrite_other (fs : FS) (p q : Path) (v : String)
    (hpq : p ≠ q) : fsRead (fsWrite fs p v) q = fsRead fs q := by
  have hqp : ¬ q = p := fun hh => hpq hh.symm
  induction fs with
  | nil => simp [fsWrite, fsRead, hpq, hqp]
  | cons e rest ih =>
    by_cases h : e.1 = p
    · simp [fsWrite, fsRead, h, hpq, hqp]
    · by_cases h2 : e.1 = q <;> simp [fsWrite, fsRead, h, h2, hpq, hqp, ih]

theorem mapGet_mapSet_same {α : Type} (m : List (String × α)) (k : String)
    (v : α) : mapGet (mapSet m k v) k = some v := by
  induction m with
  | nil => simp [mapSet, mapGet]
  | cons e rest ih =>
    by_cases h : e.1 = k
    · simp [mapSet, mapGet, h]
    · simp [mapSet, mapGet, h, ih]

theorem mapGet_mapDel_same {α : Type} (m : List (String × α)) (k : String) :
    mapGet (mapDel m k) k = none := by
  induction m with
  | nil => simp [mapDel, mapGet]
  | cons e rest ih =>
    by_cases h : e.1 = k
    · simp [mapDel, mapGet, h, ih]
    · simp [mapDel, mapGet, h, ih]

theorem mapGet_mapDel_other {α : Type} (m : List (String × α)) (k q : String)
    (hkq : k ≠ q) : mapGet (mapDel m k) q = mapGet m q := by
  have hqk : ¬ q = k := fun hh => hkq hh.symm
  induction m with
  | nil => simp [mapDel, mapGet]
  | cons e rest ih =>
    by_cases h : e.1 = k
    · have h2 : ¬ e.1 = q := by rw [h]; exact hkq
      simp [mapDel, mapGet, h, h2, hkq, ih]
    · by_cases h2 : e.1 = q <;> simp [mapDel, mapGet, h, h2, hqk, ih]

/-- The manifest data file and its `.type` companion never collide: their
last path components differ in length. -/
theorem manifestPath_ne_typePath (repo ref : String) :
    manifestPath repo ref ≠ manifestTypePath repo ref := by
  intro h
  have h3 : sanitizeRef ref ++ ".json" = sanitizeRef ref ++ ".json.type" := by
    simpa [manifestPath, manifestTypePath] using h
  have hlen := congrArg String.length h3
  rw [String.length_append, String.length_append] at hlen
  have h5 : (".json" : String).length = 5 := rfl
  have h10 : (".json.type" : String).length = 10 := rfl
  omega

theorem mapGet_mapSet_other {α : Type} (m : List (String × α)) (k q : String)
    (v : α) (hkq : k ≠ q) : mapGet (mapSet m k v) q = mapGet m q := by
  have hqk : ¬ q = k := fun hh => hkq hh.symm
  induction m with
  | nil => simp [mapSet, mapGet, hkq, hqk]
  | cons e rest ih =>
    by_cases h : e.1 = k
    · have h2 : ¬ e.1 = q := by rw [h]; exact hkq
      simp [mapSet, mapGet, h, h2, hkq, ih]
    · by_cases h2 : e.1 = q <;> simp [mapSet, mapGet, h, h2, hqk, ih]

/-- Setting a key that is absent appends the binding. -/
theorem mapSet_of_get_none {α : Type} (m : List (String × α)) (k : String)
    (v : α) (h : mapGet m k = none) : mapSet m k v = m ++ [(k, v)] := by
  induction m with
  | nil => simp [mapSet]
  | cons e rest ih =>
    by_cases he : e.1 = k
    · simp [mapGet, he] at h
    · simp [mapGet, he] at h
      simp [mapSet, he, ih h]

/-! ### C1 — allocator invariants -/

/-- For at most 31 mask bits (at least one host bit) the Go `maxHosts`
computation is the exact `2^(32-ones) - 2`. -/
theorem maxHostsOf_eq (ones : Nat) (h : ones ≤ 31) :
    maxHostsOf ones = 2 ^ (32 - ones) - 2 := by
  unfold maxHostsOf U32
  rw [Nat.shiftLeft_eq, one_mul]
  rcases Nat.eq_or_lt_of_le h with h31 | hlt
  · subst h31; decide
  · have hle : 32 - ones ≤ 32 := by omega
    have hge : 1 ≤ 32 - ones := by omega
    have hlow : 2 ≤ 2 ^ (32 - ones) := by
      calc 2 = 2 ^ 1 := rfl
        _ ≤ 2 ^ (32 - ones) := Nat.pow_le_pow_right (by omega) hge
    have hhigh : 2 ^ (32 - ones) ≤ 2 ^ 32 := Nat.pow_le_pow_right (by omega) hle
    have h32 : (2 : Nat) ^ 32 = 4294967296 := by norm_num
    omega

/-- Alignment bound: an aligned base leaves room for a full host range
below `2^32`. -/
theorem aligned_base_bound (base ones : Nat) (hones : ones ≤ 31)
    (hb : base < U32) (ha : base % 2 ^ (32 - ones) = 0) :
    base + 2 ^ (32 - ones) ≤ U32 := by
  obtain ⟨q, hq⟩ := Nat.dvd_of_mod_eq_zero ha
  have hsplit : 2 ^ (32 - ones) * 2 ^ ones = U32 := by
    rw [← pow_add]
    unfold U32
    congr 1
    omega
  have hqlt : q < 2 ^ ones := by
    by_contra hge
    push_neg at hge
    have : U32 ≤ base := by
      calc U32 = 2 ^ (32 - ones) * 2 ^ ones := hsplit.symm
        _ ≤ 2 ^ (32 - ones) * q := Nat.mul_le_mul_left _ hge
        _ = base := hq.symm
    omega
  calc base + 2 ^ (32 - ones) = 2 ^ (32 - ones) * (q + 1) := by
        rw [hq]; ring
    _ ≤ 2 ^ (32 - ones) * 2 ^ ones := Nat.mul_le_mul_left _ hqlt
    _ = U32 := hsplit

/-- Every entry of `mapSet m k v` is an old entry or the new binding. -/
theorem mem_mapSet_elim {α : Type} (m : List (String × α)) (k : String)
    (v : α) : ∀ e ∈ mapSet m k v, e ∈ m ∨ e = (k, v) := by
  induction m with
  | nil => simp [mapSet]
  | cons h rest ih =>
    intro e he
    by_cases hk : h.1 = k
    · simp [mapSet, hk] at he
      rcases he with he | he
      · right; rw [he]
      · left; exact List.mem_cons_of_mem _ he
    · simp only [mapSet, hk, if_false] at he
      rcases List.mem_cons.mp he with he | he
      · left; rw [he]; exact List.mem_cons_self _ _
      · rcases ih e he with h1 | h1
        · left; exact List.mem_cons_of_mem _ h1
        · right; exact h1

/-- Values of `mapSet m k v` come from `m` or are `v`. -/
theorem mem_map_snd_mapSet {α : Type} (m : List (String × α)) (k : String)
    (v x : α) (hx : x ∈ (mapSet m k v).map Prod.snd) :
    x ∈ m.map Prod.snd ∨ x = v := by
  rw [List.mem_map] at hx
  obtain ⟨e, he, hev⟩ := hx
  rcases mem_mapSet_elim m k v e he with h1 | h1
  · left; rw [List.mem_map]; exact ⟨e, h1, hev⟩
  · right; rw [h1] at hev; rw [← hev]

/-- A fresh value keeps the value list duplicate-free across `mapSet`
(replacing a binding only removes a value). -/
theorem mapSet_map_snd_nodup {α : Type} (m : List (String × α)) (k : String)
    (v : α) (hnd : (m.map Prod.snd).Nodup) (hv : v ∉ m.map Prod.snd) :
    ((mapSet m k v).map Prod.snd).Nodup := by
  induction m with
  | nil => simp [mapSet]
  | cons h rest ih =>
    simp only [List.map_cons, List.nodup_cons] at hnd
    simp only [List.map_cons, List.mem_cons] at hv
    push_neg at hv
    by_cases hk : h.1 = k
    · simp only [mapSet, hk, if_true, List.map_cons, List.nodup_cons]
      exact ⟨hv.2, hnd.2⟩
    · simp only [mapSet, hk, if_false, List.map_cons, List.nodup_cons]
      refine ⟨fun hc => ?_, ih hnd.2 hv.2⟩
      rcases mem_map_snd_mapSet rest k v _ hc with h1 | h1
      · exact hnd.1 h1
      · exact hv.1 h1.symm

/-- One full specification of the scan loop: fields other than the
allocation map and the cursor are untouched, the pool invariant is
preserved (also across failed scans, whose cursor movement persists), and
a returned address is fresh, inside the CIDR, distinct from the gateway,
and recorded under the key. -/
theorem allocScan_spec (key : String) : ∀ (fuel : Nat) (p : IPPool),
    fuel ≤ maxHostsOf p.maskOnes → PoolWF p → PoolInv p →
    ((allocScan fuel p key).2.subnetBase = p.subnetBase ∧
      (allocScan fuel p key).2.maskOnes = p.maskOnes ∧
      (allocScan fuel p key).2.gateway = p.gateway) ∧
    PoolInv (allocScan fuel p key).2 ∧
    ((allocScan fuel p key).1 = none →
      (allocScan fuel p key).2.allocated = p.allocated) ∧
    (∀ ip, (allocScan fuel p key).1 = some ip →
      inCIDR p.subnetBase p.maskOnes ip ∧ ip ≠ p.gateway ∧
      ip ∉ p.allocated.map Prod.snd ∧
      (allocScan fuel p key).2.allocated = mapSet p.allocated key ip) := by
  intro fuel
  induction fuel with
  | zero =>
    intro p _ _ hinv
    refine ⟨⟨rfl, rfl, rfl⟩, hinv, fun _ => rfl, fun ip hip => ?_⟩
    simp [allocScan] at hip
  | succ fuel ih =>
    intro p hfuel hwf hinv
    obtain ⟨hones, hblt, halign⟩ := hwf
    obtain ⟨hvals, hnd, hn2, hnmax⟩ := hinv
    have hmax : maxHostsOf p.maskOnes = 2 ^ (32 - p.maskOnes) - 2 :=
      maxHostsOf_eq _ hones
    have hmge1 : 1 ≤ maxHostsOf p.maskOnes := by omega
    have hpow3 : 3 ≤ 2 ^ (32 - p.maskOnes) := by omega
    have hhge2 : 2 ≤ 32 - p.maskOnes := by
      by_contra hcon
      push_neg at hcon
      have h21 : 2 ^ (32 - p.maskOnes) ≤ 2 ^ 1 :=
        Nat.pow_le_pow_right (by omega) (by omega)
      simp at h21
      omega
    have hpow4 : 4 ≤ 2 ^ (32 - p.maskOnes) := by
      calc (4 : Nat) = 2 ^ 2 := rfl
        _ ≤ 2 ^ (32 - p.maskOnes) := Nat.pow_le_pow_right (by omega) hhge2
    have hmge2 : 2 ≤ maxHostsOf p.maskOnes := by omega
    have hnmax2 : p.nextIP ≤ maxHostsOf p.maskOnes := by
      rw [max_eq_left hmge2] at hnmax
      exact hnmax
    have hbound : p.subnetBase + 2 ^ (32 - p.maskOnes) ≤ U32 :=
      aligned_base_bound _ _ hones hblt halign
    have hcand : (p.subnetBase + p.nextIP) % U32 = p.subnetBase + p.nextIP :=
      Nat.mod_eq_of_lt (by omega)
    have hbump : (p.nextIP + 1) % U32 = p.nextIP + 1 :=
      Nat.mod_eq_of_lt (by
        have : (0 : Nat) ≤ p.subnetBase := Nat.zero_le _
        omega)
    have hinc : inCIDR p.subnetBase p.maskOnes (p.subnetBase + p.nextIP) := by
      unfold inCIDR
      obtain ⟨q, hq⟩ := Nat.dvd_of_mod_eq_zero halign
      have hd : 0 < 2 ^ (32 - p.maskOnes) := by omega
      have hdiv : (p.subnetBase + p.nextIP) / 2 ^ (32 - p.maskOnes) = q := by
        rw [hq, Nat.mul_add_div hd, Nat.div_eq_of_lt (by omega), Nat.add_zero]
      rw [hdiv, hq, Nat.mul_comm]
    have hnext2 : 2 ≤ (if maxHostsOf p.maskOnes < (p.nextIP + 1) % U32
        then 2 else (p.nextIP + 1) % U32) := by
      rw [hbump]
      split <;> omega
    have hnextmax : (if maxHostsOf p.maskOnes < (p.nextIP + 1) % U32
        then 2 else (p.nextIP + 1) % U32) ≤
        max (maxHostsOf p.maskOnes) 2 := by
      rw [hbump, max_eq_left hmge2]
      split <;> omega
    simp only [allocScan]
    split
    · next hcond =>
      obtain ⟨htaken, hgw⟩ := hcond
      rw [hcand] at hgw
      have hfresh : p.subnetBase + p.nextIP ∉ p.allocated.map Prod.snd := by
        intro hmem
        rw [List.mem_map] at hmem
        obtain ⟨e, he, hev⟩ := hmem
        have hany : p.allocated.any (fun e =>
            decide (e.2 = (p.subnetBase + p.nextIP) % U32)) = true := by
          rw [List.any_eq_true]
          exact ⟨e, he, by rw [hcand]; simpa using hev⟩
        rw [htaken] at hany
        cases hany
      refine ⟨⟨rfl, rfl, rfl⟩, ?_, ⟨fun h => by simp at h, ?_⟩⟩
      · refine ⟨?_, ?_, hnext2, hnextmax⟩
        · intro e he
          rcases mem_mapSet_elim _ _ _ e he with h1 | h1
          · exact hvals e h1
          · rw [h1]
            rw [hcand]
            exact ⟨hinc, hgw⟩
        · rw [hcand]
          exact mapSet_map_snd_nodup _ _ _ hnd hfresh
      · intro ip hip
        have hipc : ip = (p.subnetBase + p.nextIP) % U32 := by
          cases hip
          rfl
        rw [hipc, hcand]
        exact ⟨hinc, hgw, hfresh, rfl⟩
    · next hcond =>
      have ihp := ih { p with
          nextIP := if maxHostsOf p.maskOnes < (p.nextIP + 1) % U32
            then 2 else (p.nextIP + 1) % U32 }
        (by simpa using Nat.le_of_succ_le hfuel)
        ⟨hones, hblt, halign⟩
        ⟨hvals, hnd, hnext2, hnextmax⟩
      exact ihp

/-- Sequence-level invariant for `allocateSeq` on one pool: the pool's
identity fields persist, the invariant is maintained, old bindings
survive, and the successful results are fresh, pairwise tracked values. -/
theorem allocateSeq_spec (name : String) : ∀ (keys : List String)
    (a : Allocator) (p : IPPool),
    mapGet a.pools name = some p → PoolWF p → PoolInv p → keys.Nodup →
    (∀ k ∈ keys, mapGet p.allocated k = none) →
    ∃ p1, mapGet (allocateSeq a name keys).2.pools name = some p1 ∧
      p1.subnetBase = p.subnetBase ∧ p1.maskOnes = p.maskOnes ∧
      p1.gateway = p.gateway ∧ PoolInv p1 ∧
      (∀ e ∈ p.allocated, e ∈ p1.allocated) ∧
      (allocateSeq a name keys).1.Nodup ∧
      (∀ ip ∈ (allocateSeq a name keys).1,
        inCIDR p.subnetBase p.maskOnes ip ∧ ip ≠ p.gateway ∧
        ip ∉ p.allocated.map Prod.snd ∧ ip ∈ p1.allocated.map Prod.snd) := by
  intro keys
  induction keys with
  | nil =>
    intro a p hp hwf hinv _ _
    exact ⟨p, hp, rfl, rfl, rfl, hinv, fun e he => he, List.nodup_nil,
      fun ip hip => absurd hip (List.not_mem_nil ip)⟩
  | cons k ks ih =>
    intro a p hp hwf hinv hnd hfresh
    have hknd : k ∉ ks ∧ ks.Nodup := List.nodup_cons.mp hnd
    have hkfresh : mapGet p.allocated k = none :=
      hfresh k (List.mem_cons_self k ks)
    have hksfresh : ∀ k' ∈ ks, mapGet p.allocated k' = none :=
      fun k' hk' => hfresh k' (List.mem_cons_of_mem k hk')
    rcases hscan : allocateFromPool p k with ⟨res, pool1⟩
    have hscan2 : allocScan (maxHostsOf p.maskOnes) p k = (res, pool1) :=
      hscan
    have spec := allocScan_spec k (maxHostsOf p.maskOnes) p le_rfl hwf hinv
    rw [hscan2] at spec
    dsimp only at spec
    obtain ⟨⟨hb1, hm1, hg1⟩, hinv1, hnone, hsome⟩ := spec
    have hallocate : allocate a name k = allocateFinish a name (res, pool1) := by
      have h1 : allocate a name k =
          allocateFinish a name (allocateFromPool p k) := by
        unfold allocate
        rw [hp]
      rw [hscan] at h1
      exact h1
    have hwf1 : PoolWF pool1 :=
      ⟨hm1 ▸ hwf.1, hb1 ▸ hwf.2.1, by rw [hb1, hm1]; exact hwf.2.2⟩
    have hget1 : mapGet
        (⟨mapSet a.pools name pool1⟩ : Allocator).pools name = some pool1 :=
      mapGet_mapSet_same _ _ _
    cases res with
    | none =>
      -- exhausted: the cursor may have moved, the allocation map did not
      have halleq : pool1.allocated = p.allocated := hnone rfl
      rcases hrec : allocateSeq ⟨mapSet a.pools name pool1⟩ name ks
        with ⟨ips, a2⟩
      have hseq : allocateSeq a name (k :: ks) = (ips, a2) := by
        simp only [allocateSeq]
        rw [hallocate]
        dsimp only [allocateFinish]
        exact hrec
      obtain ⟨p1, hp1, hb2, hm2, hg2, hinv2, hext, hnd2, hprops⟩ :=
        ih ⟨mapSet a.pools name pool1⟩ pool1 hget1 hwf1 hinv1 hknd.2
          (by rw [halleq]; exact hksfresh)
      rw [hrec] at hp1 hnd2 hprops
      rw [hseq]
      refine ⟨p1, hp1, by rw [hb2, hb1], by rw [hm2, hm1], by rw [hg2, hg1],
        hinv2, ?_, hnd2, ?_⟩
      · intro e he
        exact hext e (by rw [halleq]; exact he)
      · intro ip hip
        have h1 := hprops ip hip
        rw [hb1, hm1, hg1, halleq] at h1
        exact h1
    | some ip0 =>
      obtain ⟨hinc0, hgw0, hfresh0, halleq⟩ := hsome ip0 rfl
      have hall1 : pool1.allocated = p.allocated ++ [(k, ip0)] := by
        rw [halleq]
        exact mapSet_of_get_none _ _ _ hkfresh
      rcases hrec : allocateSeq ⟨mapSet a.pools name pool1⟩ name ks
        with ⟨ips, a2⟩
      have hseq : allocateSeq a name (k :: ks) = (ip0 :: ips, a2) := by
        simp only [allocateSeq]
        rw [hallocate]
        dsimp only [allocateFinish]
        rw [hrec]
      have hksfresh1 : ∀ k' ∈ ks, mapGet pool1.allocated k' = none := by
        intro k' hk'
        rw [halleq, mapGet_mapSet_other _ _ _ _
          (fun hkk => hknd.1 (by rw [hkk]; exact hk')), hksfresh k' hk']
      obtain ⟨p1, hp1, hb2, hm2, hg2, hinv2, hext, hnd2, hprops⟩ :=
        ih ⟨mapSet a.pools name pool1⟩ pool1 hget1 hwf1 hinv1 hknd.2 hksfresh1
      rw [hrec] at hp1 hnd2 hprops
      have hip0in : ip0 ∈ p1.allocated.map Prod.snd := by
        rw [List.mem_map]
        refine ⟨(k, ip0), hext (k, ip0) ?_, rfl⟩
        rw [hall1]
        exact List.mem_append_right _ (List.mem_singleton.mpr rfl)
      rw [hseq]
      refine ⟨p1, hp1, by rw [hb2, hb1], by rw [hm2, hm1], by rw [hg2, hg1],
        hinv2, ?_, ?_, ?_⟩
      · intro e he
        refine hext e ?_
        rw [hall1]
        exact List.mem_append_left _ he
      · rw [List.nodup_cons]
        refine ⟨fun hip0rest => ?_, hnd2⟩
        have h1 := hprops ip0 hip0rest
        apply h1.2.2.1
        rw [hall1, List.map_append]
        exact List.mem_append_right _ (by simp)
      · intro ip hip
        rcases List.mem_cons.mp hip with hipeq | hiprest
        · rw [hipeq]
          exact ⟨hinc0, hgw0, hfresh0, hip0in⟩
        · have h1 := hprops ip hiprest
          rw [hb1, hm1, hg1] at h1
          refine ⟨h1.1, h1.2.1, fun hmem => h1.2.2.1 ?_, h1.2.2.2⟩
          rw [hall1, List.map_append]
          exact List.mem_append_left _ hmem

/-- C1, amended: for a pool registered via `AddPool` with at most 31 mask
bits and a mask-aligned `uint32` base, any sequence of `Allocate` calls
with pairwise-distinct keys yields pairwise-distinct addresses, each
inside the CIDR and none equal to the gateway. -/
theorem allocateSeq_distinct_inCIDR (a0 : Allocator) (name : String)
    (base ones gw : Nat) (keys : List String) (hones : ones ≤ 31)
    (hbase : base < U32) (halign : base % 2 ^ (32 - ones) = 0)
    (hkeys : keys.Nodup) :
    (allocateSeq (addPool a0 name base ones gw) name keys).1.Nodup ∧
      ∀ ip ∈ (allocateSeq (addPool a0 name base ones gw) name keys).1,
        inCIDR base ones ip ∧ ip ≠ gw := by
  have hget : mapGet (addPool a0 name base ones gw).pools name =
      some ⟨base, ones, gw, [], 2⟩ := mapGet_mapSet_same _ _ _
  obtain ⟨p1, _, _, _, _, _, _, hnd, hprops⟩ :=
    allocateSeq_spec name keys (addPool a0 name base ones gw)
      ⟨base, ones, gw, [], 2⟩ hget ⟨hones, hbase, halign⟩
      ⟨(by intro e he; cases he), List.nodup_nil, le_rfl, le_max_right _ _⟩
      hkeys (fun k _ => rfl)
  exact ⟨hnd, fun ip hip => ⟨(hprops ip hip).1, (hprops ip hip).2.1⟩⟩

/-- Witness for the amended C1: pool `172.20.0.0/24`, gateway
`172.20.0.1`, three distinct keys. -/
theorem allocateSeq_distinct_inCIDR_witness :
    (allocateSeq (addPool emptyAllocator "pods"
        (172 * 2 ^ 24 + 20 * 2 ^ 16) 24 (172 * 2 ^ 24 + 20 * 2 ^ 16 + 1))
        "pods" ["k1", "k2", "k3"]).1.Nodup ∧
      ∀ ip ∈ (allocateSeq (addPool emptyAllocator "pods"
          (172 * 2 ^ 24 + 20 * 2 ^ 16) 24
          (172 * 2 ^ 24 + 20 * 2 ^ 16 + 1)) "pods" ["k1", "k2", "k3"]).1,
        inCIDR (172 * 2 ^ 24 + 20 * 2 ^ 16) 24 ip ∧
          ip ≠ 172 * 2 ^ 24 + 20 * 2 ^ 16 + 1 :=
  allocateSeq_distinct_inCIDR emptyAllocator "pods"
    (172 * 2 ^ 24 + 20 * 2 ^ 16) 24 (172 * 2 ^ 24 + 20 * 2 ^ 16 + 1)
    ["k1", "k2", "k3"] (by decide) (by decide) (by decide) (by decide)

/-! ### C6 — manifest round-trip -/

/-- Amended C6 body: for a non-empty content type, `PutManifest` followed
by `GetManifest` returns byte-identical data and the identical content
type.  (The original claim fails for the empty content type, see the
counterexample: no `.type` file is written and `GetManifest` substitutes
the default v2 media type.) -/
theorem putManifest_getManifest_roundtrip (fs : FS)
    (repo ref ct data : String) (hct : ct ≠ "") :
    getManifest (putManifest fs repo ref ct data) repo ref =
      some (data, ct) := by
  unfold putManifest getManifest
  rw [if_pos hct]
  rw [fsRead_fsWrite_other _ _ _ _
        (Ne.symm (manifestPath_ne_typePath repo ref)),
      fsRead_fsWrite_same, fsRead_fsWrite_same]

/-- C6, as stated, fails at the empty content type: `PutManifest` writes no
`.type` file and `GetManifest` returns the default v2 manifest media type
instead of the empty string. -/
theorem putManifest_empty_contentType_not_identity :
    getManifest (putManifest [] "library/nginx" "latest" "" "\x7b\x7d")
        "library/nginx" "latest" = some ("\x7b\x7d", defaultManifestType) ∧
      defaultManifestType ≠ "" := by
  exact ⟨rfl, by decide⟩

/-- Witness: concrete round trip with a non-empty content type. -/
theorem putManifest_getManifest_roundtrip_witness :
    getManifest (putManifest [] "library/nginx" "latest"
        "application/vnd.oci.image.manifest.v1+json" "\x7b\x22schemaVersion\x22:2\x7d")
        "library/nginx" "latest" =
      some ("\x7b\x22schemaVersion\x22:2\x7d",
        "application/vnd.oci.image.manifest.v1+json") :=
  putManifest_getManifest_roundtrip [] "library/nginx" "latest"
    "application/vnd.oci.image.manifest.v1+json" "\x7b\x22schemaVersion\x22:2\x7d"
    (by decide)

/-! ### C10 — reference sanitization aliasing -/

/-- C10: references that sanitize alike alias the same stored manifest:
bytes put under `ref1` are returned by a get under `ref2`. -/
theorem manifest_ref_aliasing (fs : FS) (repo ref1 ref2 ct data : String)
    (h : sanitizeRef ref1 = sanitizeRef ref2) :
    (getManifest (putManifest fs repo ref1 ct data) repo ref2).map
        Prod.fst = some data := by
  have hdp : manifestPath repo ref2 = manifestPath repo ref1 := by
    simp [manifestPath, h]
  have htp : manifestTypePath repo ref2 = manifestTypePath repo ref1 := by
    simp [manifestTypePath, h]
  unfold putManifest getManifest
  by_cases hct : ct ≠ ""
  · rw [if_pos hct, hdp, htp,
        fsRead_fsWrite_other _ _ _ _
          (Ne.symm (manifestPath_ne_typePath repo ref1)),
        fsRead_fsWrite_same, fsRead_fsWrite_same]
    rfl
  · rw [if_neg hct, hdp, htp, fsRead_fsWrite_same]
    cases fsRead (fsWrite fs (manifestPath repo ref1) data)
        (manifestTypePath repo ref1) <;> rfl

/-- Witness: `sha256:abc` and `sha256-abc` alias. -/
theorem manifest_ref_aliasing_witness :
    (getManifest (putManifest [] "library/nginx" "sha256:abc"
        "application/json" "manifest-bytes") "library/nginx"
        "sha256-abc").map Prod.fst = some "manifest-bytes" :=
  manifest_ref_aliasing [] "library/nginx" "sha256:abc" "sha256-abc"
    "application/json" "manifest-bytes" (by decide)

/-! ### C7 — blob writes are not atomic -/

/-- C7 fails on the code: `PutBlob` opens the final path directly
(`os.Create` + `io.Copy`, no temp file, no rename), so a reader that
errors after delivering `"par"` leaves the partial content at the blob
path: the copy reports the error, yet `HasBlob` sees the blob with size 3
and `GetBlob` returns the partial bytes. -/
theorem putBlob_partial_write_observable :
    (putBlob [] "sha256:abcd" "par" true).2 = true ∧
      hasBlob (putBlob [] "sha256:abcd" "par" true).1 "sha256:abcd" =
        (true, 3) ∧
      getBlob (putBlob [] "sha256:abcd" "par" true).1 "sha256:abcd" =
        some "par" :=
  ⟨rfl, by decide, rfl⟩

/-! ### C4 — BootSequence topological order -/

theorem stateLe_refl (s : VisitState) : StateLe s s :=
  ⟨fun _ hn => hn, ⟨[], (List.append_nil _).symm⟩⟩

theorem stateLe_trans {s1 s2 s3 : VisitState} (h12 : StateLe s1 s2)
    (h23 : StateLe s2 s3) : StateLe s1 s3 := by
  obtain ⟨hv12, e12, he12⟩ := h12
  obtain ⟨hv23, e23, he23⟩ := h23
  exact ⟨fun n hn => hv23 n (hv12 n hn),
    ⟨e12 ++ e23, by rw [he23, he12, List.append_assoc]⟩⟩

theorem foldl_stateLe {α : Type} {f : VisitState → α → VisitState}
    (hf : ∀ s d, StateLe s (f s d)) :
    ∀ (l : List α) (s : VisitState), StateLe s (l.foldl f s) := by
  intro l
  induction l with
  | nil => intro s; exact stateLe_refl s
  | cons d l ih =>
    intro s
    exact stateLe_trans (hf s d) (ih (f s d))

theorem visitD_stateLe : ∀ (fuel : Nat) (g : List CUnit) (u : CUnit)
    (s : VisitState), StateLe s (visitD fuel g u s) := by
  intro fuel
  induction fuel with
  | zero => intro g u s; exact stateLe_refl s
  | succ fuel ih =>
    intro g u s
    simp only [visitD]
    by_cases hv : u.name ∈ s.visited
    · rw [if_pos hv]
      exact stateLe_refl s
    · rw [if_neg hv]
      have h1 : StateLe s ⟨u.name :: s.visited, s.result⟩ :=
        ⟨fun n hn => List.mem_cons_of_mem _ hn, ⟨[], (List.append_nil _).symm⟩⟩
      have h2 := foldl_stateLe (f := fun acc dep =>
          (lookupUnit g dep).elim acc fun d => visitD fuel g d acc)
        (by
          intro acc dep
          dsimp only
          cases hl : lookupUnit g dep with
          | none => exact stateLe_refl acc
          | some d => exact ih g d acc)
        u.dependsOn ⟨u.name :: s.visited, s.result⟩
      refine stateLe_trans h1 (stateLe_trans h2 ⟨fun n hn => hn, ⟨[u], rfl⟩⟩)

theorem countNotMem_sub (vis vis1 : List String)
    (hsub : ∀ n ∈ vis, n ∈ vis1) : ∀ l : List String,
    countNotMem l vis1 ≤ countNotMem l vis := by
  intro l
  induction l with
  | nil => exact le_rfl
  | cons b l ih =>
    simp only [countNotMem]
    by_cases hb1 : b ∈ vis1
    · by_cases hb : b ∈ vis <;> simp [hb, hb1] <;> omega
    · have hb : ¬ b ∈ vis := fun hc => hb1 (hsub b hc)
      simp [hb, hb1]
      omega

theorem countNotMem_cons_notmem (a : String) : ∀ (l vis : List String),
    ¬ a ∈ l → countNotMem l (a :: vis) = countNotMem l vis := by
  intro l
  induction l with
  | nil => intro vis _; rfl
  | cons b l ih =>
    intro vis hal
    have hba : ¬ b = a := fun hc => hal (hc ▸ List.mem_cons_self b l)
    have hal2 : ¬ a ∈ l := fun hc => hal (List.mem_cons_of_mem b hc)
    simp only [countNotMem]
    have hbiff : (b ∈ a :: vis) ↔ (b ∈ vis) := by
      simp [List.mem_cons, hba]
    by_cases hbv : b ∈ vis
    · simp [hbv, hbiff.mpr hbv, ih vis hal2]
    · have hbv2 : ¬ b ∈ a :: vis := fun hc => hbv (hbiff.mp hc)
      simp [hbv, hbv2, ih vis hal2]

theorem countNotMem_mark (a : String) : ∀ (l vis : List String),
    l.Nodup → a ∈ l → ¬ a ∈ vis →
    countNotMem l (a :: vis) + 1 = countNotMem l vis := by
  intro l
  induction l with
  | nil => intro vis _ ha; cases ha
  | cons b l ih =>
    intro vis hnd hal hav
    rw [List.nodup_cons] at hnd
    simp only [countNotMem]
    by_cases hba : b = a
    · have halnot : ¬ a ∈ l := by rw [← hba]; exact hnd.1
      have h1 : b ∈ a :: vis := by rw [hba]; exact List.mem_cons_self a vis
      have h2 : ¬ b ∈ vis := by rw [hba]; exact hav
      simp [h1, h2, countNotMem_cons_notmem a l vis halnot]
      omega
    · have hal2 : a ∈ l := by
        rcases List.mem_cons.mp hal with h | h
        · exact absurd h.symm hba
        · exact h
      have hbiff : (b ∈ a :: vis) ↔ (b ∈ vis) := by
        simp [List.mem_cons, hba]
      by_cases hbv : b ∈ vis
      · simp [hbv, hbiff.mpr hbv]
        exact ih vis hnd.2 hal2 hav
      · have hbv2 : ¬ b ∈ a :: vis := fun hc => hbv (hbiff.mp hc)
        have hrec := ih vis hnd.2 hal2 hav
        simp [hbv, hbv2]
        omega

theorem countNotMem_le_length : ∀ (l vis : List String),
    countNotMem l vis ≤ l.length := by
  intro l
  induction l with
  | nil => intro vis; exact le_rfl
  | cons b l ih =>
    intro vis
    simp only [countNotMem, List.length_cons]
    have := ih vis
    by_cases hb : b ∈ vis
    · simp [hb]
      omega
    · simp [hb]
      omega

theorem unvisitedCount_mono (g : List CUnit) (s s1 : VisitState)
    (h : ∀ n ∈ s.visited, n ∈ s1.visited) :
    unvisitedCount g s1 ≤ unvisitedCount g s :=
  countNotMem_sub _ _ h _

theorem unvisitedCount_mark (g : List CUnit) (s : VisitState)
    (hnd : (g.map fun u => u.name).Nodup) (u : CUnit) (hu : u ∈ g)
    (hv : ¬ u.name ∈ s.visited) :
    unvisitedCount g ⟨u.name :: s.visited, s.result⟩ + 1 =
      unvisitedCount g s :=
  countNotMem_mark u.name _ _ hnd
    (List.mem_map_of_mem (fun w => w.name) hu) hv

theorem lookupUnit_mem {g : List CUnit} {n : String} {d : CUnit}
    (h : lookupUnit g n = some d) : d ∈ g ∧ d.name = n := by
  refine ⟨List.mem_of_find?_eq_some h, ?_⟩
  have := List.find?_some h
  simpa using this

/-- Appending a unit whose resolvable dependencies are already emitted
preserves topological order. -/
theorem topoOrdered_append (g res : List CUnit) (u : CUnit)
    (h : TopoOrdered g res)
    (hdeps : ∀ dep ∈ u.dependsOn, ∀ d, lookupUnit g dep = some d →
      ∃ i < res.length, res[i]? = some d) :
    TopoOrdered g (res ++ [u]) := by
  intro j v hjv dep hdep d hd
  rcases Nat.lt_trichotomy j res.length with hj | hj | hj
  · rw [List.getElem?_append, if_pos hj] at hjv
    obtain ⟨i, hi, hires⟩ := h j v hjv dep hdep d hd
    exact ⟨i, hi, by rw [List.getElem?_append, if_pos (hi.trans hj)]; exact hires⟩
  · have hvu : v = u := by
      rw [hj, List.getElem?_concat_length] at hjv
      exact Option.some.inj hjv.symm
    obtain ⟨i, hi, hires⟩ := hdeps dep (hvu ▸ hdep) d hd
    exact ⟨i, hj ▸ hi, by rw [List.getElem?_append, if_pos hi]; exact hires⟩
  · exfalso
    have hlen : (res ++ [u]).length ≤ j := by
      rw [List.length_append, List.length_singleton]
      omega
    rw [List.getElem?_eq_none hlen] at hjv
    cases hjv

/-- The core DFS lemma: under an acyclicity rank and sufficient fuel, one
`visit` call preserves the invariant (with the same pending stack) and
marks the visited unit. -/
theorem visitD_spec (g : List CUnit) (r : String → Nat)
    (hrank : RankOK g r) (hnd : (g.map fun u => u.name).Nodup) :
    ∀ (fuel : Nat) (u : CUnit) (s : VisitState) (pend : List String),
    u ∈ g → unvisitedCount g s < fuel → VisitInv g s pend →
    (∀ p ∈ pend, r u.name < r p) →
    VisitInv g (visitD fuel g u s) pend ∧
      u.name ∈ (visitD fuel g u s).visited := by
  intro fuel
  induction fuel with
  | zero =>
    intro u s pend _ hm _ _
    omega
  | succ fuel ih =>
    intro u s pend hu hm hinv hpend
    by_cases hv : u.name ∈ s.visited
    · have hskip : visitD (fuel + 1) g u s = s := by
        simp only [visitD]
        rw [if_pos hv]
      rw [hskip]
      exact ⟨hinv, hv⟩
    · have hdef : visitD (fuel + 1) g u s =
          ⟨(u.dependsOn.foldl
              (fun acc dep => (lookupUnit g dep).elim acc
                fun d => visitD fuel g d acc)
              ⟨u.name :: s.visited, s.result⟩).visited,
            (u.dependsOn.foldl
              (fun acc dep => (lookupUnit g dep).elim acc
                fun d => visitD fuel g d acc)
              ⟨u.name :: s.visited, s.result⟩).result ++ [u]⟩ := by
        simp only [visitD]
        rw [if_neg hv]
      obtain ⟨hiff, hsub, htopo, hndres, hdisj⟩ := hinv
      have hupend : ¬ u.name ∈ pend := fun hp => lt_irrefl _ (hpend _ hp)
      have hinv1 : VisitInv g ⟨u.name :: s.visited, s.result⟩
          (u.name :: pend) := by
        refine ⟨?_, hsub, htopo, hndres, ?_⟩
        · intro n
          constructor
          · intro hn
            rcases List.mem_cons.mp hn with hn | hn
            · right
              rw [hn]
              exact List.mem_cons_self _ _
            · rcases (hiff n).mp hn with h | h
              · exact Or.inl h
              · exact Or.inr (List.mem_cons_of_mem _ h)
          · intro hn
            rcases hn with h | h
            · exact List.mem_cons_of_mem _ ((hiff n).mpr (Or.inl h))
            · rcases List.mem_cons.mp h with h | h
              · rw [h]
                exact List.mem_cons_self _ _
              · exact List.mem_cons_of_mem _ ((hiff n).mpr (Or.inr h))
        · intro n hn
          rcases List.mem_cons.mp hn with hn | hn
          · rw [hn]
            intro hc
            exact hv ((hiff u.name).mpr (Or.inl hc))
          · exact hdisj n hn
      have hm1 : unvisitedCount g ⟨u.name :: s.visited, s.result⟩ < fuel := by
        have := unvisitedCount_mark g s hnd u hu hv
        omega
      have hfold : ∀ (deps : List String),
          (∀ dep ∈ deps, ∀ d, lookupUnit g dep = some d →
            r d.name < r u.name) →
          ∀ (acc : VisitState), VisitInv g acc (u.name :: pend) →
          (∀ n ∈ (u.name :: s.visited), n ∈ acc.visited) →
          VisitInv g (deps.foldl
              (fun acc dep => (lookupUnit g dep).elim acc
                fun d => visitD fuel g d acc) acc) (u.name :: pend) ∧
          (∀ n ∈ acc.visited, n ∈ (deps.foldl
              (fun acc dep => (lookupUnit g dep).elim acc
                fun d => visitD fuel g d acc) acc).visited) ∧
          (∀ dep ∈ deps, ∀ d, lookupUnit g dep = some d →
            d.name ∈ (deps.foldl
              (fun acc dep => (lookupUnit g dep).elim acc
                fun d => visitD fuel g d acc) acc).visited) := by
        intro deps
        induction deps with
        | nil =>
          intro _ acc hacc _
          exact ⟨hacc, fun n hn => hn,
            fun dep hdep => absurd hdep (List.not_mem_nil dep)⟩
        | cons dep deps ihd =>
          intro hdeps acc hacc haccv
          rw [List.foldl_cons]
          cases hl : lookupUnit g dep with
          | none =>
            obtain ⟨h1, h2, h3⟩ :=
              ihd (fun dd hdd => hdeps dd (List.mem_cons_of_mem dep hdd))
                acc hacc haccv
            refine ⟨h1, h2, ?_⟩
            intro dd hdd d' hd'
            rcases List.mem_cons.mp hdd with hdd | hdd
            · rw [hdd, hl] at hd'
              cases hd'
            · exact h3 dd hdd d' hd'
          | some d =>
            obtain ⟨hdg, hdname⟩ := lookupUnit_mem hl
            have hrankd : r d.name < r u.name :=
              hdeps dep (List.mem_cons_self dep deps) d hl
            have hpendd : ∀ p ∈ u.name :: pend, r d.name < r p := by
              intro p hp
              rcases List.mem_cons.mp hp with hp | hp
              · rw [hp]
                exact hrankd
              · exact lt_trans hrankd (hpend p hp)
            have hmacc : unvisitedCount g acc < fuel :=
              lt_of_le_of_lt
                (unvisitedCount_mono g ⟨u.name :: s.visited, s.result⟩
                  acc haccv) hm1
            obtain ⟨hinvd, hdvis⟩ :=
              ih d acc (u.name :: pend) hdg hmacc hacc hpendd
            have hled := visitD_stateLe fuel g d acc
            obtain ⟨h1, h2, h3⟩ :=
              ihd (fun dd hdd => hdeps dd (List.mem_cons_of_mem dep hdd))
                (visitD fuel g d acc) hinvd
                (fun n hn => hled.1 n (haccv n hn))
            refine ⟨h1, fun n hn => h2 n (hled.1 n hn), ?_⟩
            intro dd hdd d' hd'
            rcases List.mem_cons.mp hdd with hdd | hdd
            · rw [hdd, hl] at hd'
              cases hd'
              exact h2 d.name hdvis
            · exact h3 dd hdd d' hd'
      obtain ⟨hinv2, hmono2, hdepsvis⟩ :=
        hfold u.dependsOn (fun dep hdep => hrank u hu dep hdep)
          ⟨u.name :: s.visited, s.result⟩ hinv1 (fun n hn => hn)
      obtain ⟨hiff2, hsub2, htopo2, hnd2, hdisj2⟩ := hinv2
      have huvis : u.name ∈ (u.dependsOn.foldl
          (fun acc dep => (lookupUnit g dep).elim acc
            fun d => visitD fuel g d acc)
          ⟨u.name :: s.visited, s.result⟩).visited :=
        hmono2 u.name (List.mem_cons_self _ _)
      have hunotres : ¬ u.name ∈ ((u.dependsOn.foldl
          (fun acc dep => (lookupUnit g dep).elim acc
            fun d => visitD fuel g d acc)
          ⟨u.name :: s.visited, s.result⟩).result.map fun w => w.name) :=
        hdisj2 u.name (List.mem_cons_self _ _)
      rw [hdef]
      refine ⟨⟨?_, ?_, ?_, ?_, ?_⟩, huvis⟩
      · intro n
        rw [List.map_append]
        constructor
        · intro hn
          rcases (hiff2 n).mp hn with h | h
          · exact Or.inl (List.mem_append_left _ h)
          · rcases List.mem_cons.mp h with h | h
            · exact Or.inl (List.mem_append_right _ (by simp [h]))
            · exact Or.inr h
        · intro hn
          rcases hn with h | h
          · rcases List.mem_append.mp h with h | h
            · exact (hiff2 n).mpr (Or.inl h)
            · simp at h
              rw [h]
              exact huvis
          · exact (hiff2 n).mpr (Or.inr (List.mem_cons_of_mem _ h))
      · intro v hvmem
        rcases List.mem_append.mp hvmem with h | h
        · exact hsub2 v h
        · rw [List.mem_singleton.mp h]
          exact hu
      · refine topoOrdered_append g _ u htopo2 ?_
        intro dep hdep d hd
        have hdnv := hdepsvis dep hdep d hd
        rcases (hiff2 d.name).mp hdnv with h | h
        · rw [List.mem_map] at h
          obtain ⟨w, hw, hwname⟩ := h
          have hdg := (lookupUnit_mem hd).1
          have hwd : w = d :=
            List.inj_on_of_nodup_map hnd (hsub2 w hw) hdg hwname
          rw [hwd] at hw
          obtain ⟨i, hi⟩ := List.mem_iff_getElem?.mp hw
          obtain ⟨hilen, _⟩ := List.getElem?_eq_some.mp hi
          exact ⟨i, hilen, hi⟩
        · exfalso
          have hrd : r d.name < r u.name := hrank u hu dep hdep d hd
          rcases List.mem_cons.mp h with h | h
          · rw [h] at hrd
            exact lt_irrefl _ hrd
          · exact lt_asymm hrd (hpend d.name h)
      · rw [List.map_append]
        refine List.Nodup.append hnd2 (List.nodup_singleton _) ?_
        intro a ha hau
        simp at hau
        rw [hau] at ha
        exact hunotres ha
      · intro n hn
        rw [List.map_append]
        intro hc
        rcases List.mem_append.mp hc with h | h
        · exact hdisj2 n (List.mem_cons_of_mem _ hn) h
        · simp at h
          rw [h] at hn
          exact hupend hn

/-- Folding `visit` over any list of registered units preserves the
stack-free invariant and marks every unit of the list. -/
theorem visitAll_spec (g : List CUnit) (r : String → Nat)
    (hrank : RankOK g r) (hnd : (g.map fun u => u.name).Nodup) :
    ∀ (us : List CUnit) (s : VisitState), (∀ u ∈ us, u ∈ g) →
    VisitInv g s [] →
    VisitInv g (us.foldl (fun s u => visitD (g.length + 1) g u s) s) [] ∧
    ∀ u ∈ us, u.name ∈
      (us.foldl (fun s u => visitD (g.length + 1) g u s) s).visited := by
  intro us
  induction us with
  | nil =>
    intro s _ hinv
    exact ⟨hinv, fun u hu => absurd hu (List.not_mem_nil u)⟩
  | cons u us ihu =>
    intro s hmem hinv
    rw [List.foldl_cons]
    have hm : unvisitedCount g s < g.length + 1 := by
      have h1 := countNotMem_le_length (g.map fun u => u.name) s.visited
      rw [List.length_map] at h1
      unfold unvisitedCount
      omega
    obtain ⟨hinv1, hvis1⟩ := visitD_spec g r hrank hnd (g.length + 1) u s []
      (hmem u (List.mem_cons_self u us)) hm hinv
      (fun p hp => absurd hp (List.not_mem_nil p))
    obtain ⟨h1, h2⟩ := ihu (visitD (g.length + 1) g u s)
      (fun w hw => hmem w (List.mem_cons_of_mem _ hw)) hinv1
    refine ⟨h1, ?_⟩
    intro w hw
    rcases List.mem_cons.mp hw with hw | hw
    · have hle := foldl_stateLe
        (f := fun s (u : CUnit) => visitD (g.length + 1) g u s)
        (fun s d => visitD_stateLe _ g d s) us (visitD (g.length + 1) g u s)
      rw [hw]
      exact hle.1 u.name hvis1
    · exact h2 w hw

/-- C4: with an acyclic dependency graph (witnessed by a rank function on
names that strictly decreases along resolvable dependency edges),
`BootSequence`'s `topoSort` — over the registered units in any order, as
Go's map iteration and unstable priority sort produce some permutation —
returns a valid topological order: every dependency of a unit that is
registered appears strictly before the unit, and every registered unit
(including those with unregistered dependencies) is emitted exactly
once. -/
theorem bootSequence_topological (g units : List CUnit) (r : String → Nat)
    (hperm : units.Perm g) (hnd : (g.map fun u => u.name).Nodup)
    (hrank : RankOK g r) :
    TopoOrdered g (topoSort units g) ∧ (topoSort units g).Perm g ∧
    ∀ u ∈ g, (topoSort units g).count u = 1 := by
  have hsortperm :
      (units.insertionSort fun a b => a.priority ≤ b.priority).Perm g :=
    (List.perm_insertionSort _ units).trans hperm
  have hmem : ∀ u ∈ (units.insertionSort fun a b =>
      a.priority ≤ b.priority), u ∈ g :=
    fun u hu => hsortperm.mem_iff.mp hu
  have hinv0 : VisitInv g ⟨[], []⟩ [] := by
    refine ⟨?_, ?_, ?_, ?_, ?_⟩
    · intro n
      simp
    · intro v hv
      exact absurd hv (List.not_mem_nil v)
    · intro j v hjv
      simp at hjv
    · simp
    · intro n hn
      exact absurd hn (List.not_mem_nil n)
  obtain ⟨hinvf, hallvis⟩ := visitAll_spec g r hrank hnd
    (units.insertionSort fun a b => a.priority ≤ b.priority) ⟨[], []⟩
    hmem hinv0
  have hts : topoSort units g =
      ((units.insertionSort fun a b => a.priority ≤ b.priority).foldl
        (fun s u => visitD (g.length + 1) g u s) ⟨[], []⟩).result := rfl
  obtain ⟨hiff, hsub, htopo, hndres, _⟩ := hinvf
  have hgsub : ∀ u ∈ g,
      u ∈ ((units.insertionSort fun a b => a.priority ≤ b.priority).foldl
        (fun s u => visitD (g.length + 1) g u s) ⟨[], []⟩).result := by
    intro u hu
    have hvis := hallvis u (hsortperm.mem_iff.mpr hu)
    rcases (hiff u.name).mp hvis with h | h
    · rw [List.mem_map] at h
      obtain ⟨w, hw, hwname⟩ := h
      have hwu : w = u := List.inj_on_of_nodup_map hnd (hsub w hw) hu hwname
      rw [← hwu]
      exact hw
    · exact absurd h (List.not_mem_nil u.name)
  have hresnodup : ((units.insertionSort fun a b =>
      a.priority ≤ b.priority).foldl
        (fun s u => visitD (g.length + 1) g u s) ⟨[], []⟩).result.Nodup :=
    List.Nodup.of_map _ hndres
  have hgnodup : g.Nodup := List.Nodup.of_map _ hnd
  have hperm2 : ((units.insertionSort fun a b =>
      a.priority ≤ b.priority).foldl
        (fun s u => visitD (g.length + 1) g u s) ⟨[], []⟩).result.Perm g :=
    (List.perm_ext_iff_of_nodup hresnodup hgnodup).mpr
      (fun a => ⟨fun h => hsub a h, fun h => hgsub a h⟩)
  rw [hts]
  exact ⟨htopo, hperm2, fun u hu =>
    (hperm2.count_eq u).trans (List.count_eq_one_of_mem hgnodup hu)⟩

/-- Witness for C4 at the spec's own example: `database` (priority 20, no
dependencies) and `app` (priority 10, depends on `database`), with the
rank function ranking `app` above `database`. -/
theorem bootSequence_topological_witness :
    TopoOrdered [⟨"database", [], 20⟩, ⟨"app", ["database"], 10⟩]
        (topoSort [⟨"database", [], 20⟩, ⟨"app", ["database"], 10⟩]
          [⟨"database", [], 20⟩, ⟨"app", ["database"], 10⟩]) ∧
      (topoSort [⟨"database", [], 20⟩, ⟨"app", ["database"], 10⟩]
          [⟨"database", [], 20⟩, ⟨"app", ["database"], 10⟩]).Perm
        [⟨"database", [], 20⟩, ⟨"app", ["database"], 10⟩] ∧
      ∀ u ∈ [(⟨"database", [], 20⟩ : CUnit), ⟨"app", ["database"], 10⟩],
        (topoSort [⟨"database", [], 20⟩, ⟨"app", ["database"], 10⟩]
          [⟨"database", [], 20⟩, ⟨"app", ["database"], 10⟩]).count u = 1 :=
  bootSequence_topological
    [⟨"database", [], 20⟩, ⟨"app", ["database"], 10⟩]
    [⟨"database", [], 20⟩, ⟨"app", ["database"], 10⟩]
    (fun n => if n = "app" then 1 else 0)
    (List.Perm.refl _) (by decide) (by decide)

/-! ### C2 — DeletePod (amended) -/

theorem map_snd_enumFrom (f : String → String) : ∀ (n : Nat)
    (l : List String),
    (List.enumFrom n l).map (fun ic => f ic.2) = l.map f := by
  intro n l
  induction l generalizing n with
  | nil => rfl
  | cons a l ih => simp only [List.enumFrom, List.map_cons, ih]

theorem map_snd_enum (f : String → String) (l : List String) :
    l.enum.map (fun ic => f ic.2) = l.map f :=
  map_snd_enumFrom f 0 l

theorem mapGet_mapDel_none {α : Type} (m : List (String × α)) (k q : String)
    (h : mapGet m k = none) : mapGet (mapDel m q) k = none := by
  by_cases hqk : q = k
  · rw [hqk]
    exact mapGet_mapDel_same m k
  · rw [mapGet_mapDel_other m q k hqk]
    exact h

theorem idFun_stopContainer (rt : Runtime) (id : String) (h : IdFun rt) :
    IdFun (stopContainer rt id) := by
  intro c1 hc1 c2 hc2 hid
  unfold stopContainer at hc1 hc2
  rw [List.mem_map] at hc1 hc2
  obtain ⟨d1, hd1, hd1e⟩ := hc1
  obtain ⟨d2, hd2, hd2e⟩ := hc2
  have hn1 : c1.name = d1.name := by rw [← hd1e]; split <;> rfl
  have hn2 : c2.name = d2.name := by rw [← hd2e]; split <;> rfl
  have hi1 : c1.id = d1.id := by rw [← hd1e]; split <;> rfl
  have hi2 : c2.id = d2.id := by rw [← hd2e]; split <;> rfl
  rw [hn1, hn2]
  exact h d1 hd1 d2 hd2 (by rw [← hi1, ← hi2]; exact hid)

theorem idFun_removeContainer (rt : Runtime) (id : String) (h : IdFun rt) :
    IdFun (removeContainer rt id) := by
  intro c1 hc1 c2 hc2 hid
  exact h c1 (List.mem_of_mem_filter hc1) c2 (List.mem_of_mem_filter hc2) hid

/-- A container whose name differs from the one being deleted survives the
stop-and-remove pair (its ID differs by `IdFun`). -/
theorem survives_delete (rt : Runtime) (ct : RContainer) (m : String)
    (hid : IdFun rt) (hct : ct ∈ rt) (hm : m ≠ ct.name)
    (hex : ∃ c ∈ rt, c.name = m) :
    ∃ c ∈ removeContainer
        (if ct.status = "running" then stopContainer rt ct.id else rt)
        ct.id, c.name = m := by
  obtain ⟨c, hc, hcname⟩ := hex
  have hcid : ¬ c.id = ct.id := by
    intro hidc
    exact hm (hcname ▸ hid c hc ct hct hidc)
  by_cases hrun : ct.status = "running"
  · rw [if_pos hrun]
    refine ⟨if c.id = ct.id then { c with status := "stopped" } else c, ?_, ?_⟩
    · unfold removeContainer
      rw [List.mem_filter]
      constructor
      · unfold stopContainer
        rw [List.mem_map]
        exact ⟨c, hc, rfl⟩
      · rw [if_neg hcid]
        simpa using hcid
    · rw [if_neg hcid]
      exact hcname
  · rw [if_neg hrun]
    refine ⟨c, ?_, hcname⟩
    unfold removeContainer
    rw [List.mem_filter]
    exact ⟨hc, by simpa using hcid⟩

/-- The per-container delete loop: the tracker is untouched, released
allocations and unregistered units stay released, and every container of
the list that is present in the runtime at entry gets its veth allocation
released and its unit unregistered. -/
theorem delLoop_spec (pod : Pod) : ∀ (L : List (Nat × String))
    (st : ProviderState), IdFun st.runtime →
    ((L.map fun ic => sanitizeName pod ic.2).Nodup) →
    (L.foldl (deleteContainerStep pod) st).pods = st.pods ∧
    (∀ k, mapGet st.allocated k = none →
      mapGet (L.foldl (deleteContainerStep pod) st).allocated k = none) ∧
    (∀ n, n ∉ st.units →
      n ∉ (L.foldl (deleteContainerStep pod) st).units) ∧
    ∀ ic ∈ L, (∃ c ∈ st.runtime, c.name = sanitizeName pod ic.2) →
      mapGet (L.foldl (deleteContainerStep pod) st).allocated
          (vethName pod ic.1) = none ∧
      sanitizeName pod ic.2 ∉ (L.foldl (deleteContainerStep pod) st).units := by
  intro L
  induction L with
  | nil =>
    intro st _ _
    exact ⟨rfl, fun k hk => hk, fun n hn => hn,
      fun ic hic => absurd hic (List.not_mem_nil ic)⟩
  | cons ic0 L ih =>
    intro st hid hnd
    rw [List.map_cons, List.nodup_cons] at hnd
    cases hfind : getContainer st.runtime (sanitizeName pod ic0.2) with
    | none =>
      have hstep : deleteContainerStep pod st ic0 = st := by
        simp only [deleteContainerStep]
        rw [hfind]
      have hnone : ¬ ∃ c ∈ st.runtime, c.name = sanitizeName pod ic0.2 := by
        rintro ⟨c, hc, hcn⟩
        have := List.find?_eq_none.mp hfind c hc
        simp [hcn] at this
      have hfold : (ic0 :: L).foldl (deleteContainerStep pod) st =
          L.foldl (deleteContainerStep pod) st := by
        rw [List.foldl_cons, hstep]
      obtain ⟨hpods, halloc, hunits, hall⟩ := ih st hid hnd.2
      rw [hfold]
      refine ⟨hpods, halloc, hunits, ?_⟩
      intro ic hic
      rcases List.mem_cons.mp hic with hic0 | hicL
      · intro hex
        exact absurd (hic0 ▸ hex) hnone
      · exact hall ic hicL
    | some ct =>
      have hctmem : ct ∈ st.runtime := List.mem_of_find?_eq_some hfind
      have hctname : ct.name = sanitizeName pod ic0.2 := by
        have := List.find?_some hfind
        simpa using this
      have hstep : deleteContainerStep pod st ic0 =
          { st with
              runtime := removeContainer
                (if ct.status = "running" then stopContainer st.runtime ct.id
                 else st.runtime) ct.id
              allocated := mapDel st.allocated (vethName pod ic0.1)
              units := st.units.filter fun n => ¬ n = sanitizeName pod ic0.2 } := by
        simp only [deleteContainerStep]
        rw [hfind]
      have hfold : (ic0 :: L).foldl (deleteContainerStep pod) st =
          L.foldl (deleteContainerStep pod) (deleteContainerStep pod st ic0) := by
        rw [List.foldl_cons]
      have hid1 : IdFun (deleteContainerStep pod st ic0).runtime := by
        rw [hstep]
        refine idFun_removeContainer _ _ ?_
        by_cases hrun : ct.status = "running"
        · rw [if_pos hrun]
          exact idFun_stopContainer _ _ hid
        · rw [if_neg hrun]
          exact hid
      obtain ⟨hpods, halloc, hunits, hall⟩ :=
        ih (deleteContainerStep pod st ic0) hid1 hnd.2
      rw [hfold]
      refine ⟨by rw [hpods, hstep], ?_, ?_, ?_⟩
      · intro k hk
        refine halloc k ?_
        rw [hstep]
        exact mapGet_mapDel_none _ _ _ hk
      · intro n hn
        refine hunits n ?_
        rw [hstep]
        intro hmem
        exact hn (List.mem_of_mem_filter hmem)
      · intro ic hic
        rcases List.mem_cons.mp hic with hic0 | hicL
        · intro _
          rw [hic0]
          constructor
          · refine halloc _ ?_
            rw [hstep]
            exact mapGet_mapDel_same _ _
          · refine hunits _ ?_
            rw [hstep]
            intro hmem
            rw [List.mem_filter] at hmem
            simp at hmem
        · intro hex
          have hne : sanitizeName pod ic.2 ≠ ct.name := by
            rw [hctname]
            intro heq
            exact hnd.1 (heq ▸ List.mem_map_of_mem
              (fun icx => sanitizeName pod icx.2) hicL)
          refine hall ic hicL ?_
          rw [hstep]
          exact survives_delete st.runtime ct _ hid hctmem hne hex

/-- C2, amended: after `DeletePod` the tracker lookup fails, and every
container whose runtime lookup succeeds when deletion starts has its veth
allocation released and its unit unregistered.  (Containers whose lookup
fails are skipped, as the counterexample shows.)  Container names are
assumed to sanitize to pairwise-distinct RouterOS names, and runtime IDs
to identify containers. -/
theorem deletePod_releases_found_containers (st : ProviderState) (pod : Pod)
    (hnames : (pod.containers.map fun c => sanitizeName pod c).Nodup)
    (hid : IdFun st.runtime) :
    getPod (deletePod st pod) pod.namespc pod.name = none ∧
    ∀ ic ∈ pod.containers.enum,
      (∃ c ∈ st.runtime, c.name = sanitizeName pod ic.2) →
        mapGet (deletePod st pod).allocated (vethName pod ic.1) = none ∧
        sanitizeName pod ic.2 ∉ (deletePod st pod).units := by
  have hnd : ((pod.containers.enum.map fun ic => sanitizeName pod ic.2)).Nodup := by
    rw [map_snd_enum (fun c => sanitizeName pod c) pod.containers]
    exact hnames
  obtain ⟨hpods, halloc, hunits, hall⟩ :=
    delLoop_spec pod pod.containers.enum st hid hnd
  constructor
  · unfold deletePod getPod
    exact mapGet_mapDel_same _ _
  · intro ic hic hex
    obtain ⟨ha, hu⟩ := hall ic hic hex
    exact ⟨ha, hu⟩

/-- Witness for the amended C2: one-container pod whose container is
present in the runtime; the veth allocation is gone and the unit is
unregistered afterwards, and the tracker lookup fails. -/
theorem deletePod_releases_found_containers_witness :
    getPod (deletePod
        ⟨[("default/web", ⟨"default", "web", ["nginx"], [], "Always"⟩)],
          [("veth-web-0", 7)], ["web-nginx"],
          [⟨"web-nginx", "*1", "running"⟩]⟩
        ⟨"default", "web", ["nginx"], [], "Always"⟩) "default" "web" =
      none ∧
    mapGet (deletePod
        ⟨[("default/web", ⟨"default", "web", ["nginx"], [], "Always"⟩)],
          [("veth-web-0", 7)], ["web-nginx"],
          [⟨"web-nginx", "*1", "running"⟩]⟩
        ⟨"default", "web", ["nginx"], [], "Always"⟩).allocated "veth-web-0" =
      none ∧
    "web-nginx" ∉ (deletePod
        ⟨[("default/web", ⟨"default", "web", ["nginx"], [], "Always"⟩)],
          [("veth-web-0", 7)], ["web-nginx"],
          [⟨"web-nginx", "*1", "running"⟩]⟩
        ⟨"default", "web", ["nginx"], [], "Always"⟩).units := by
  have h := deletePod_releases_found_containers
    ⟨[("default/web", ⟨"default", "web", ["nginx"], [], "Always"⟩)],
      [("veth-web-0", 7)], ["web-nginx"],
      [⟨"web-nginx", "*1", "running"⟩]⟩
    ⟨"default", "web", ["nginx"], [], "Always"⟩
    (by decide)
    (by intro c1 hc1 c2 hc2 _
        rcases List.mem_singleton.mp hc1 with rfl
        rcases List.mem_singleton.mp hc2 with rfl
        rfl)
  obtain ⟨h1, h2⟩ := h
  have h3 := h2 (0, "nginx") (by decide)
    ⟨⟨"web-nginx", "*1", "running"⟩, by decide, by decide⟩
  refine ⟨h1, ?_, ?_⟩
  · have := h3.1
    simpa using this
  · have := h3.2
    simpa using this

/-! ### C8 — HEAD versus GET headers -/

/-- C8, as stated, fails on the code: for a stored blob the GET arm sets
`Content-Type: application/octet-stream` while the HEAD arm sets no
`Content-Type` at all (and writes no body, so `net/http` sniffs none
either). -/
theorem blob_head_lacks_contentType :
    (hasBlob [(["blobs", "sha256", "ab"], "xy")] "sha256:ab").1 = true ∧
    headerGet (handleBlob [(["blobs", "sha256", "ab"], "xy")] "GET" "r"
        "sha256:ab" false (notFoundResp, [])).1 "Content-Type" =
      some "application/octet-stream" ∧
    headerGet (handleBlob [(["blobs", "sha256", "ab"], "xy")] "HEAD" "r"
        "sha256:ab" false (notFoundResp, [])).1 "Content-Type" = none :=
  ⟨by decide, by decide, by decide⟩

/-- Amended C8: for a stored manifest, HEAD and GET agree on Content-Type
and Docker-Content-Digest, HEAD declares Content-Length equal to the
manifest length (the length of GET's body) while GET sets no explicit
Content-Length; for a stored blob, HEAD and GET agree on Content-Length
and Docker-Content-Digest, and Content-Type is set only by GET. -/
theorem headHeaders_match_get (fs : FS) (repo ref digest : String)
    (pt : Bool) (up : HTTPResponse × FS) (mdata mct bdata : String) :
    (getManifest fs repo ref = some (mdata, mct) →
      headerGet (handleManifest fs "GET" repo ref pt up "" "").1
          "Content-Type" = some mct ∧
      headerGet (handleManifest fs "HEAD" repo ref pt up "" "").1
          "Content-Type" = some mct ∧
      headerGet (handleManifest fs "GET" repo ref pt up "" "").1
          "Docker-Content-Digest" = some ref ∧
      headerGet (handleManifest fs "HEAD" repo ref pt up "" "").1
          "Docker-Content-Digest" = some ref ∧
      headerGet (handleManifest fs "HEAD" repo ref pt up "" "").1
          "Content-Length" = some (toString mdata.length) ∧
      headerGet (handleManifest fs "GET" repo ref pt up "" "").1
          "Content-Length" = none ∧
      (handleManifest fs "GET" repo ref pt up "" "").1.body = some mdata) ∧
    (getBlob fs digest = some bdata →
      headerGet (handleBlob fs "GET" repo digest pt up).1
          "Content-Length" = some (toString bdata.length) ∧
      headerGet (handleBlob fs "HEAD" repo digest pt up).1
          "Content-Length" = some (toString bdata.length) ∧
      headerGet (handleBlob fs "GET" repo digest pt up).1
          "Docker-Content-Digest" = some digest ∧
      headerGet (handleBlob fs "HEAD" repo digest pt up).1
          "Docker-Content-Digest" = some digest ∧
      headerGet (handleBlob fs "GET" repo digest pt up).1
          "Content-Type" = some "application/octet-stream" ∧
      headerGet (handleBlob fs "HEAD" repo digest pt up).1
          "Content-Type" = none ∧
      (handleBlob fs "GET" repo digest pt up).1.body = some bdata) := by
  have d1 : ("Content-Type" : String) ≠ "Docker-Content-Digest" := by decide
  have d2 : ("Content-Type" : String) ≠ "Content-Length" := by decide
  have d3 : ("Content-Length" : String) ≠ "Docker-Content-Digest" := by decide
  have d4 : ("Docker-Content-Digest" : String) ≠ "Content-Length" := by decide
  have d5 : ("Content-Length" : String) ≠ "Content-Type" := by decide
  have d6 : ("Docker-Content-Digest" : String) ≠ "Content-Type" := by decide
  constructor
  · intro hm
    simp only [handleManifest, hm, headerGet, mapGet]
    simp [d1, d2, d3, d4, d5, d6]
  · intro hb
    have hhas : hasBlob fs digest = (true, bdata.length) := by
      unfold hasBlob
      unfold getBlob at hb
      rw [hb]
    simp only [handleBlob, hb, hhas, headerGet, mapGet]
    simp [d1, d2, d3, d4, d5, d6]

/-- Witness for the amended C8 at a store holding one manifest (with a
`.type` companion) and one blob. -/
theorem headHeaders_match_get_witness :
    headerGet (handleManifest
        [(["manifests", "r", "v1.json"], "mani"),
         (["manifests", "r", "v1.json.type"], "application/json"),
         (["blobs", "sha256", "ab"], "xy")] "HEAD" "r" "v1" false
        (notFoundResp, []) "" "").1 "Content-Type" =
      some "application/json" ∧
    headerGet (handleBlob
        [(["manifests", "r", "v1.json"], "mani"),
         (["manifests", "r", "v1.json.type"], "application/json"),
         (["blobs", "sha256", "ab"], "xy")] "HEAD" "r" "sha256:ab" false
        (notFoundResp, [])).1 "Content-Length" = some "2" := by
  have h := headHeaders_match_get
    [(["manifests", "r", "v1.json"], "mani"),
     (["manifests", "r", "v1.json.type"], "application/json"),
     (["blobs", "sha256", "ab"], "xy")] "r" "v1" "sha256:ab" false
    (notFoundResp, []) "mani" "application/json" "xy"
  exact ⟨(h.1 (by decide)).2.1, by
    have := (h.2 (by decide)).2.1
    simpa using this⟩

/-! ### C9 — allocate / exhaust / release / reallocate on `172.20.0.0/30` -/

/-- C9: in pool `172.20.0.0/30` with gateway `172.20.0.1`,
`Allocate("p","k1")` returns `172.20.0.2`; `Allocate("p","k2")` then
fails exhausted; after `Release("p","k1")`, `Allocate("p","k2")`
returns `172.20.0.2` again.  (`172.20.0.0 = 172*2^24 + 20*2^16`.) -/
theorem allocate_release_reallocate_30 :
    (allocate (addPool emptyAllocator "p" (172 * 2 ^ 24 + 20 * 2 ^ 16) 30
        (172 * 2 ^ 24 + 20 * 2 ^ 16 + 1)) "p" "k1").1 =
      .ok (172 * 2 ^ 24 + 20 * 2 ^ 16 + 2) ∧
    (allocate (allocate (addPool emptyAllocator "p"
        (172 * 2 ^ 24 + 20 * 2 ^ 16) 30
        (172 * 2 ^ 24 + 20 * 2 ^ 16 + 1)) "p" "k1").2 "p" "k2").1 =
      .error .exhausted ∧
    (allocate (release (allocate (allocate (addPool emptyAllocator "p"
        (172 * 2 ^ 24 + 20 * 2 ^ 16) 30
        (172 * 2 ^ 24 + 20 * 2 ^ 16 + 1)) "p" "k1").2 "p" "k2").2 "p" "k1")
        "p" "k2").1 = .ok (172 * 2 ^ 24 + 20 * 2 ^ 16 + 2) :=
  ⟨rfl, rfl, rfl⟩

/-! ### C5 — restart budget exhaustion is terminal and effect-free -/

/-- C5: with policy `Always` or `OnFailure` and the restart count at or
above the effective max-restarts (5 when the configured value is 0), one
call to the restart handler marks the unit `failed`, performs no runtime
stop/start, and leaves the restart count (and everything else) alone. -/
theorem handleUnhealthy_budget_exhausted (cfg : SystemdConfig) (now : Nat)
    (u : CUnitState)
    (hpol : u.restartPolicy = "Always" ∨ u.restartPolicy = "OnFailure")
    (hcount : (if cfg.maxRestarts = 0 then 5 else cfg.maxRestarts) ≤
      u.restartCount) :
    handleUnhealthy cfg now u = ({ u with status := "failed" }, []) ∧
      (handleUnhealthy cfg now u).1.restartCount = u.restartCount := by
  unfold handleUnhealthy
  rw [if_pos hpol, if_pos hcount]
  exact ⟨rfl, rfl⟩

/-- Witness for C5 at a concrete unit with the default budget. -/
theorem handleUnhealthy_budget_exhausted_witness :
    handleUnhealthy ⟨0, 0⟩ 100
        ⟨"web", "*1", "Always", 5, 0, "running"⟩ =
      (⟨"web", "*1", "Always", 5, 0, "failed"⟩, []) :=
  (handleUnhealthy_budget_exhausted ⟨0, 0⟩ 100
    ⟨"web", "*1", "Always", 5, 0, "running"⟩ (Or.inl rfl) (by decide)).1

/-! ### C3 — boot-priority annotation is ignored by the code -/

/-- C3 describes `extractPriority` as honouring the
`mikrotik.io/boot-priority` annotation, as both the spec and the
function's own comment state; the body returns `index * 10`
unconditionally.  At a pod carrying the annotation value `"99"` and
container index 1 the code yields 10 where the documented behaviour
(`extractPrioritySpec`) yields 99. -/
theorem extractPriority_ignores_annotation :
    extractPriority
        ⟨"default", "web", ["app"],
          [("mikrotik.io/boot-priority", "99")], "Always"⟩ 1 = 10 ∧
      extractPrioritySpec
        ⟨"default", "web", ["app"],
          [("mikrotik.io/boot-priority", "99")], "Always"⟩ 1 = 99 ∧
      (10 : Nat) ≠ 99 :=
  ⟨rfl, by decide, by decide⟩

/-! ### C1 — the `/32` underflow counterexample -/

/-- C1, as stated, fails for a `/32` pool: `maxHosts` underflows
(`uint32(1) - 2`), the scan runs, and the first candidate `base + 2` is
allocated even though it lies outside the pool's CIDR.  Here pool
`10.0.0.0/32` with gateway `10.0.0.1` hands out `10.0.0.2`. -/
theorem allocate_slash32_escapes_cidr :
    (allocate (addPool emptyAllocator "p" (10 * 2 ^ 24) 32
        (10 * 2 ^ 24 + 1)) "p" "k").1 = .ok (10 * 2 ^ 24 + 2) ∧
      ¬ inCIDR (10 * 2 ^ 24) 32 (10 * 2 ^ 24 + 2) :=
  ⟨rfl, by decide⟩

/-! ### C2 — the skipped-release counterexample -/

/-- C2, as stated, fails on the code: when the runtime lookup of a
container errs (`NotFound`), `DeletePod` logs and `continue`s, skipping
the veth release and the unit unregistration for that container.  For a
pod `default/web` with one container `nginx` absent from the runtime, the
tracker entry is dropped (so `GetPod` does return not-found), but the
`veth-web-0` allocation and the registered unit survive. -/
theorem deletePod_skips_release_on_notfound :
    getPod (deletePod
        ⟨[("default/web", ⟨"default", "web", ["nginx"], [], "Always"⟩)],
          [("veth-web-0", 7)], ["web-nginx"], []⟩
        ⟨"default", "web", ["nginx"], [], "Always"⟩) "default" "web" =
      none ∧
    mapGet (deletePod
        ⟨[("default/web", ⟨"default", "web", ["nginx"], [], "Always"⟩)],
          [("veth-web-0", 7)], ["web-nginx"], []⟩
        ⟨"default", "web", ["nginx"], [], "Always"⟩).allocated
        "veth-web-0" = some 7 ∧
    (deletePod
        ⟨[("default/web", ⟨"default", "web", ["nginx"], [], "Always"⟩)],
          [("veth-web-0", 7)], ["web-nginx"], []⟩
        ⟨"default", "web", ["nginx"], [], "Always"⟩).units =
      ["web-nginx"] :=
  ⟨rfl, rfl, rfl⟩

end MKube
